import Mathlib

/-!
# ivy-dice backend: a shallow embedding and its verified properties

The Go sources embedded here are `backend/main.go`, `backend/util.go` and
`backend/db.go`.

Conventions of the embedding:

* Go `uint64`/`uint16` values are natural numbers; every operation that Go
  performs in a fixed width is followed by an explicit reduction modulo
  `2 ^ 64` (or `2 ^ 16`).  Go `int64` values are integers, wrapped into
  `[-2^63, 2^63)` by `wrapInt64` after every operation.
* Go `string` is `String`; `[]byte` is `List Nat`; `[]byte(s)` is the UTF-8
  encoding `goBytes s`.
* Library primitives that are not part of the repository (SHA-256, base58,
  ed25519) are fields of `Prims`; randomness, the clock, `ed25519.Sign` and the
  settlement oracle are explicit arguments.
* The SQL tables are lists of rows; each statement is a function on them, and a
  request that runs alone is the composition of its statements.
-/

namespace IvyDice

/-! ## Fixed-width integers -/

/-- Reduction of a natural number to an unsigned 64-bit value. -/
def u64 (n : Nat) : Nat := n % 2 ^ 64

/-- Reduction of a natural number to an unsigned 16-bit value, Go `uint16(n)`. -/
def u16 (n : Nat) : Nat := n % 2 ^ 16

/-- Wrap an integer into the signed 64-bit range `[-2^63, 2^63)`. -/
def wrapInt64 (z : Int) : Int := (z + 2 ^ 63) % 2 ^ 64 - 2 ^ 63

/-- Go conversion `int64(x)` of a `uint64` value `x` (two's complement). -/
def int64OfU64 (x : Nat) : Int := wrapInt64 (u64 x)

/-- Go conversion `uint64(z)` of an `int64` value `z` (two's complement). -/
def u64OfInt64 (z : Int) : Nat := (z % 2 ^ 64).toNat

/-! ## Constants of `main.go` -/

def CLIENT_SEED_MIN_LENGTH : Nat := 6
def CLIENT_SEED_MAX_LENGTH : Nat := 32
def HOUSE_EDGE_PCT : Nat := 1
def UNDER_MIN : Nat := 1
def UNDER_MAX : Nat := 9802
def OVER_MIN : Nat := 197
def OVER_MAX : Nat := 9899
def MAX_BET_CENTS : Nat := 30000000

/-! ## The arithmetic of `onBet`, step (7) -/

/-- The `underAmountCents` of `onBet`: `uint64(p.Threshold)` for roll-under,
`10000 - uint64(p.Threshold)` (a `uint64` subtraction) for roll-over. -/
def underAmountCents (rollUnder : Bool) (threshold : Nat) : Nat :=
  if rollUnder then u64 (u16 threshold)
  else u64 (10000 + 2 ^ 64 - u64 (u16 threshold))

/-- The `payout` of `onBet`:
`(p.WagerCents * 10000 * (100 - HOUSE_EDGE_PCT)) / (underAmountCents * 100)`,
every product taken in `uint64`.  Go panics on a zero divisor; here `n / 0 = 0`,
and the divisor is shown to be non-zero wherever the payout is used. -/
def payoutCents (wagerCents under : Nat) : Nat :=
  u64 (u64 (wagerCents * 10000) * (100 - HOUSE_EDGE_PCT)) / u64 (under * 100)

/-- The `deltaCents` of `onBet`: on a win `int64(payout) - int64(p.WagerCents)`,
on a loss `-int64(p.WagerCents)`, in `int64` arithmetic. -/
def deltaCents (won : Bool) (wagerCents under : Nat) : Int :=
  if won then
    wrapInt64 (int64OfU64 (payoutCents wagerCents under) - int64OfU64 wagerCents)
  else
    wrapInt64 (-int64OfU64 wagerCents)

/-- The `newBalance` of `onBet`: `int64(user.BalanceCents) + deltaCents`,
replaced by `0` when negative. -/
def newBalance (balanceCents : Nat) (delta : Int) : Int :=
  let nb := wrapInt64 (int64OfU64 balanceCents + delta)
  if nb < 0 then 0 else nb

/-- The threshold check of `onBet`, step (1): `true` when the threshold is
accepted for its direction. -/
def thresholdOk (rollUnder : Bool) (threshold : Nat) : Bool :=
  if rollUnder then
    if threshold < UNDER_MIN then false
    else if threshold > UNDER_MAX then false
    else true
  else
    if threshold < OVER_MIN then false
    else if threshold > OVER_MAX then false
    else true

/-! ## Results of Go calls -/

/-- The error sites of the embedded functions (the formatted text of a Go error
is not modelled, only which `return ..., err` produced it). -/
inductive Err where
  | invalidThreshold
  | insufficientBalance
  | maxBet
  | clientSeedLength
  | serverSeedDecode
  | authFormat
  | authUserFormat
  | authUserLength
  | authGameFormat
  | authGameLength
  | authWrongGame
  | authFromFormat
  | authToFormat
  | authExpiry
  | authSignatureHex
  | authSignatureLength
  | authSignatureInvalid
  | hexInvalidByte
  | hexLength
  | casMismatchingIds
  | casNoMatchingRow
  | sqlConstraint
  | depositZero
  | withdrawZero
  | creditNoRows
  | sqlNoRows
  | depositNotOwned
  | depositNotPending
  | uncompleteNoRows
  | hex32Length
  | externalService
  deriving DecidableEq, Repr

/-- Outcome of a Go call: a value, a returned `error`, or a run-time panic. -/
inductive Res (α : Type) where
  | ok (a : α)
  | error (e : Err)
  | panic
  deriving DecidableEq, Repr

/-! ## Bytes, `encoding/hex`, `encoding/binary` -/

/-- Go `[]byte(s)`: the UTF-8 encoding of a string. -/
def goBytes (s : String) : List Nat :=
  s.data.flatMap fun c => (String.utf8EncodeChar c).map fun b => b.toNat

/-- The `reverseHexTable` of `encoding/hex`: the value of a hexadecimal digit
byte, `none` for every other byte. -/
def fromHexChar (b : Nat) : Option Nat :=
  if 48 ≤ b ∧ b ≤ 57 then some (b - 48)
  else if 97 ≤ b ∧ b ≤ 102 then some (b - 97 + 10)
  else if 65 ≤ b ∧ b ≤ 70 then some (b - 65 + 10)
  else none

/-- The loop of Go `hex.Decode(dst, src)`: `i` is the number of bytes written so
far.  Each pair of digits is checked, then written with `dst[i] = ...`, which
panics when `i` is outside `dst`; a trailing single byte gives `InvalidByteError`
or `ErrLength`. -/
def hexDecodeLoop : List Nat → Nat → List Nat → Res (Nat × List Nat)
  | [], i, dst => .ok (i, dst)
  | [p], _, _ =>
    match fromHexChar p with
    | none => .error .hexInvalidByte
    | some _ => .error .hexLength
  | p :: q :: rest, i, dst =>
    match fromHexChar p with
    | none => .error .hexInvalidByte
    | some a =>
      match fromHexChar q with
      | none => .error .hexInvalidByte
      | some b =>
        if i < dst.length then
          hexDecodeLoop rest (i + 1) (dst.set i (((a <<< 4) ||| b) % 256))
        else .panic

/-- Go `hex.Decode(dst, src)`: the number of bytes written and the buffer. -/
def hexDecode (dst src : List Nat) : Res (Nat × List Nat) :=
  hexDecodeLoop src 0 dst

/-- Go `hex.DecodeString(s)`: decodes into a fresh buffer of `len(s) / 2` bytes
and returns its first `n` bytes. -/
def hexDecodeString (s : String) : Res (List Nat) :=
  match hexDecode (List.replicate ((goBytes s).length / 2) 0) (goBytes s) with
  | .ok (n, dst) => .ok (dst.take n)
  | .error e => .error e
  | .panic => .panic

/-- One character of the `hextable` `"0123456789abcdef"`. -/
def hexDigit (n : Nat) : Char :=
  if n < 10 then Char.ofNat (48 + n) else Char.ofNat (87 + n)

/-- The byte of the character `hexDigit n` (its code in ASCII). -/
def hexByte (n : Nat) : Nat := if n < 10 then 48 + n else 87 + n

/-- Go `hex.EncodeToString(src)`: two lower-case digits per byte. -/
def hexEncodeToString (src : List Nat) : String :=
  String.mk (src.flatMap fun v => [hexDigit ((v % 256) >>> 4), hexDigit ((v % 256) &&& 15)])

/-- Go `binary.LittleEndian.Uint64(b)`:
`uint64(b[0]) | uint64(b[1])<<8 | ... | uint64(b[7])<<56` (Go panics when `b`
has fewer than 8 bytes; the callers pass exactly 8). -/
def leUint64 (b : List Nat) : Nat :=
  u64 (b.getD 0 0) ||| u64 (u64 (b.getD 1 0) <<< 8) ||| u64 (u64 (b.getD 2 0) <<< 16)
    ||| u64 (u64 (b.getD 3 0) <<< 24) ||| u64 (u64 (b.getD 4 0) <<< 32)
    ||| u64 (u64 (b.getD 5 0) <<< 40) ||| u64 (u64 (b.getD 6 0) <<< 48)
    ||| u64 (u64 (b.getD 7 0) <<< 56)

/-- Go `binary.LittleEndian.PutUint64(b, v)`: the 8 bytes
`byte(v), byte(v >> 8), ..., byte(v >> 56)`. -/
def lePutUint64 (v : Nat) : List Nat :=
  [v % 256, (v >>> 8) % 256, (v >>> 16) % 256, (v >>> 24) % 256,
   (v >>> 32) % 256, (v >>> 40) % 256, (v >>> 48) % 256, (v >>> 56) % 256]

/-- The little-endian value of 8 bytes as a sum, the reading the specification
gives of "little-endian unsigned 64-bit integer". -/
def leValue (b : List Nat) : Nat :=
  b.getD 0 0 + b.getD 1 0 * 256 + b.getD 2 0 * 256 ^ 2 + b.getD 3 0 * 256 ^ 3
    + b.getD 4 0 * 256 ^ 4 + b.getD 5 0 * 256 ^ 5 + b.getD 6 0 * 256 ^ 6
    + b.getD 7 0 * 256 ^ 7

/-! ## Library primitives -/

/-- The primitives the repository imports: `sha256.Sum256` (a 32-byte digest),
`base58.Decode` / `base58.Encode` and `ed25519.Verify`. -/
structure Prims where
  sha256 : List Nat → List Nat
  sha256_length : ∀ m, (sha256 m).length = 32
  sha256_byte : ∀ m, ∀ b ∈ sha256 m, b < 256
  base58Decode : String → Option (List Nat)
  base58Encode : List Nat → String
  ed25519Verify : List Nat → List Nat → List Nat → Bool

/-! ## `Roll` (main.go) -/

/-- Go `Roll(serverSeed, clientSeed)`: the first 8 digest bytes of
`serverSeed ++ clientSeed` as a little-endian `uint64`, modulo 10000, converted
to `uint16`. -/
def Roll (P : Prims) (serverSeed clientSeed : List Nat) : Nat :=
  let seed := serverSeed ++ clientSeed
  let hash := P.sha256 seed
  let n := leUint64 (hash.take 8)
  u16 (n % 10000)

/-! ## `CentsToRaw`, `GenerateID` (util.go) -/

/-- Go `CentsToRaw(cents)`: `cents * 10_000_000` in `uint64`. -/
def CentsToRaw (cents : Nat) : Nat := u64 (cents * 10000000)

/-- Go `GenerateID(amountRaw)`: `rnd` is the 24 bytes read from `rand.Reader`
into `id[:24]`; `id[24:]` is `PutUint64(amountRaw)`. -/
def GenerateID (rnd : List Nat) (amountRaw : Nat) : List Nat :=
  rnd ++ lePutUint64 amountRaw

/-! ## `VerifyMessage` (util.go) -/

/-- The character class `[1-9A-Za-z]` of `VERIFY_MESSAGE_REGEX`. -/
def isKeyChar (c : Char) : Bool :=
  (decide ('1' ≤ c) && decide (c ≤ '9')) || (decide ('A' ≤ c) && decide (c ≤ 'Z'))
    || (decide ('a' ≤ c) && decide (c ≤ 'z'))

/-- The character class `[0-9]` of `VERIFY_MESSAGE_REGEX`. -/
def isNumChar (c : Char) : Bool := decide ('0' ≤ c) && decide (c ≤ '9')

/-- Consume a literal piece of the pattern from the front of the input. -/
def dropLit : List Char → List Char → Option (List Char)
  | [], s => some s
  | _ :: _, [] => none
  | c :: l, d :: s => if c = d then dropLit l s else none

/-- The four literal pieces of `VERIFY_MESSAGE_REGEX`. -/
def litUser : List Char := "Authenticate user ".data
def litGame : List Char := " to game ".data
def litFrom : List Char := " on ivypowered.com, valid from ".data
def litTo : List Char := " to ".data

/-- The match of `VERIFY_MESSAGE_REGEX`
`^Authenticate user ([1-9A-Za-z]+) to game ([1-9A-Za-z]+) on ivypowered\.com, valid from ([0-9]+) to ([0-9]+)$`
against the whole message, giving the four submatches.  Each group is
followed by a character outside its class (a space, or the end of the text), so
the only possible match takes the longest run of class characters. -/
def matchAuth (msg : List Char) : Option (List Char × List Char × List Char × List Char) :=
  match dropLit litUser msg with
  | none => none
  | some s1 =>
    let user := s1.takeWhile isKeyChar
    if user = [] then none else
    match dropLit litGame (s1.dropWhile isKeyChar) with
    | none => none
    | some s2 =>
      let game := s2.takeWhile isKeyChar
      if game = [] then none else
      match dropLit litFrom (s2.dropWhile isKeyChar) with
      | none => none
      | some s3 =>
        let fromS := s3.takeWhile isNumChar
        if fromS = [] then none else
        match dropLit litTo (s3.dropWhile isNumChar) with
        | none => none
        | some s4 =>
          let toS := s4.takeWhile isNumChar
          if toS = [] then none else
          if s4.dropWhile isNumChar = [] then some (user, game, fromS, toS) else none

/-- The value of a string of decimal digits. -/
def digitsValue (ds : List Char) : Nat :=
  ds.foldl (fun acc c => acc * 10 + (c.toNat - 48)) 0

/-- Go `strconv.ParseUint(s, 10, 0)` on a non-empty string of decimal digits
(what the pattern guarantees): the value, or an error when it does not fit the
64 bits of `uint`. -/
def parseUint (ds : List Char) : Option Nat :=
  if digitsValue ds < 2 ^ 64 then some (digitsValue ds) else none

/-- Go `VerifyMessage(game, message, signature)`; `now` is
`uint64(time.Now().Unix())`. -/
def VerifyMessage (P : Prims) (now : Nat) (game : List Nat) (message signature : String) :
    Res (List Nat) :=
  match matchAuth message.data with
  | none => .error .authFormat
  | some (userS, gameS, fromS, toS) =>
    match P.base58Decode (String.mk userS) with
    | none => .error .authUserFormat
    | some userBytes =>
      if userBytes.length ≠ 32 then .error .authUserLength else
      match P.base58Decode (String.mk gameS) with
      | none => .error .authGameFormat
      | some gameBytes =>
        if gameBytes.length ≠ 32 then .error .authGameLength else
        if gameBytes ≠ game then .error .authWrongGame else
        match parseUint fromS with
        | none => .error .authFromFormat
        | some fromT =>
          match parseUint toS with
          | none => .error .authToFormat
          | some toT =>
            if now < fromT ∨ now > toT then .error .authExpiry else
            match hexDecode (List.replicate 64 0) (goBytes signature) with
            | .panic => .panic
            | .error _ => .error .authSignatureHex
            | .ok (n, sig) =>
              if n ≠ 64 then .error .authSignatureLength else
              if P.ed25519Verify userBytes (goBytes message) sig then .ok userBytes
              else .error .authSignatureInvalid

/-- Go `VerifyMessageB58`: the verified user key, base58-encoded. -/
def VerifyMessageB58 (P : Prims) (now : Nat) (game : List Nat) (message signature : String) :
    Res String :=
  match VerifyMessage P now game message signature with
  | .ok bytes => .ok (P.base58Encode bytes)
  | .error e => .error e
  | .panic => .panic

/-! ## The store (db.go) -/

/-- A row of the `users` table, and the Go `User` struct. -/
structure User where
  Id : String
  ServerSeed : String
  BalanceCents : Nat
  deriving DecidableEq, Repr

/-- A row of the `bets` table, and the Go `Bet` struct. -/
structure Bet where
  Id : Nat
  UserId : String
  AmountCents : Nat
  RollUnder : Bool
  Threshold : Nat
  Result : Nat
  Won : Bool
  ServerSeed : String
  CreatedAt : Nat
  deriving DecidableEq, Repr

/-- A row of the `deposits` table (`signature` and `completedAt` are nullable). -/
structure Deposit where
  Id : String
  UserId : String
  Url : String
  AmountCents : Nat
  Completed : Bool
  Signature : Option String
  CreatedAt : Nat
  CompletedAt : Option Nat
  deriving DecidableEq, Repr

/-- A row of the `withdrawals` table, and the Go `Withdrawal` struct. -/
structure Withdrawal where
  Id : String
  UserId : String
  Url : String
  AmountCents : Nat
  Signature : String
  CreatedAt : Nat
  deriving DecidableEq, Repr

/-- The tables of the store, each a list of rows in insertion order. -/
structure Database where
  users : List User
  bets : List Bet
  deposits : List Deposit
  withdrawals : List Withdrawal := []
  deriving DecidableEq, Repr

/-- The statement `SELECT serverSeed, balanceCents FROM users WHERE id = ?`, as
read by `QueryRow(...).Scan`: the first matching row, if any. -/
def usersSelect (db : Database) (id : String) : Option User :=
  db.users.find? fun r => decide (r.Id = id)

/-- The statement `INSERT INTO users (id, serverSeed, balanceCents) VALUES (?, ?, ?)`:
fails on the primary key when a row with this id exists. -/
def usersInsert (db : Database) (row : User) : Option Database :=
  if db.users.any (fun r => decide (r.Id = row.Id)) then none
  else some { db with users := db.users ++ [row] }

/-- Go `Database.UserGet(id)`; `seedBytes` is the value `NewServerSeed()` returns
when it is called. -/
def UserGet (db : Database) (seedBytes : List Nat) (id : String) : Res User × Database :=
  match usersSelect db id with
  | some r => (.ok { Id := id, ServerSeed := r.ServerSeed, BalanceCents := r.BalanceCents }, db)
  | none =>
    let serverSeed := hexEncodeToString seedBytes
    match usersInsert db { Id := id, ServerSeed := serverSeed, BalanceCents := 0 } with
    | none => (.error .sqlConstraint, db)
    | some db1 => (.ok { Id := id, ServerSeed := serverSeed, BalanceCents := 0 }, db1)

/-- The `WHERE id = ? AND serverSeed = ? AND balanceCents = ?` of the
compare-and-swap statement. -/
def casMatches (expected : User) (r : User) : Bool :=
  decide (r.Id = expected.Id) && decide (r.ServerSeed = expected.ServerSeed)
    && decide (r.BalanceCents = expected.BalanceCents)

/-- The statement `UPDATE users SET serverSeed = ?, balanceCents = ? WHERE id = ?
AND serverSeed = ? AND balanceCents = ?`: the new table and `RowsAffected`. -/
def usersCasUpdate (users : List User) (expected desired : User) : List User × Nat :=
  (users.map fun r =>
      if casMatches expected r then
        { r with ServerSeed := desired.ServerSeed, BalanceCents := desired.BalanceCents }
      else r,
   users.countP (casMatches expected))

/-- Go `Database.UserCompareExchange(expected, desired)`.  The two balances are
arguments of `db.Exec`: `database/sql` passes a `uint64` below `2 ^ 63` to the
statement and returns a conversion error for a larger one before the statement
runs, so the model follows the call for balances below `2 ^ 63`. -/
def UserCompareExchange (db : Database) (expected desired : User) : Res Unit × Database :=
  if expected.Id ≠ desired.Id then (.error .casMismatchingIds, db)
  else
    let (users1, affected) := usersCasUpdate db.users expected desired
    let db1 := { db with users := users1 }
    if affected < 1 then (.error .casNoMatchingRow, db1) else (.ok (), db1)

/-- Go `Database.BetCreate(b)`: the insert into `bets`; the row id is assigned by
the table and `createdAt` defaults to the current time. -/
def BetCreate (db : Database) (now : Nat) (b : Bet) : Database :=
  { db with bets := db.bets ++ [{ b with Id := db.bets.length + 1, CreatedAt := now }] }

/-- Go `Database.DepositCreate(id, userId, url, amountCents)`: the insert into
`deposits`, which fails on the primary key when the id exists (the foreign key
on `userId` is declared but not enforced by the store as opened).  The model
follows the call for `amountCents` below `2 ^ 63`; `database/sql` returns a
conversion error for a larger `uint64` argument before the statement runs. -/
def DepositCreate (db : Database) (now : Nat) (id userId url : String) (amountCents : Nat) :
    Res Unit × Database :=
  if db.deposits.any (fun d => decide (d.Id = id)) then (.error .sqlConstraint, db)
  else
    (.ok (),
     { db with deposits := db.deposits ++
        [{ Id := id, UserId := userId, Url := url, AmountCents := amountCents,
           Completed := false, Signature := none, CreatedAt := now, CompletedAt := none }] })

/-- Go `Database.UserCredit(id, amountCents)`: the statement
`UPDATE users SET balanceCents = balanceCents + ? WHERE id = ?`, an error when
no row is affected.  The store adds in 64-bit signed integers: the sum is exact
while it stays below `2 ^ 63` and becomes a floating-point value from there on,
which a later `UserGet` cannot scan.  The model follows the call where
`amountCents` and the sum in every credited row are below `2 ^ 63`. -/
def UserCredit (db : Database) (id : String) (amountCents : Nat) : Res Unit × Database :=
  let users1 := db.users.map fun r =>
    if r.Id = id then { r with BalanceCents := r.BalanceCents + amountCents } else r
  let aff := db.users.countP fun r => decide (r.Id = id)
  let db1 := { db with users := users1 }
  if aff < 1 then (.error .creditNoRows, db1) else (.ok (), db1)

/-- Go `Database.DepositGet(id)`: the first row of `deposits` with this id, or
the `sql.ErrNoRows` of `Scan`.  The Go struct holds the empty string and a nil
pointer where the row holds NULL. -/
def DepositGet (db : Database) (id : String) : Res Deposit :=
  match db.deposits.find? fun d => decide (d.Id = id) with
  | some d => .ok d
  | none => .error .sqlNoRows

/-- Go `Database.DepositUncomplete(id)`: the statement
`UPDATE deposits SET completed = 0 WHERE id = ?`. -/
def DepositUncomplete (db : Database) (id : String) : Res Unit × Database :=
  let deposits1 := db.deposits.map fun d =>
    if d.Id = id then { d with Completed := false } else d
  let aff := db.deposits.countP fun d => decide (d.Id = id)
  let db1 := { db with deposits := deposits1 }
  if aff < 1 then (.error .uncompleteNoRows, db1) else (.ok (), db1)

/-- Go `Database.DepositComplete(id, signature, timestamp)`: the statement
`UPDATE deposits SET completed = 1, signature = ?, completedAt = ? WHERE id = ?
AND completed = 0`, an error when no row is affected. -/
def DepositComplete (db : Database) (id signature : String) (timestamp : Nat) :
    Res Unit × Database :=
  let deposits1 := db.deposits.map fun d =>
    if d.Id = id ∧ d.Completed = false then
      { d with Completed := true, Signature := some signature, CompletedAt := some timestamp }
    else d
  let affected := db.deposits.countP fun d => decide (d.Id = id ∧ d.Completed = false)
  let db1 := { db with deposits := deposits1 }
  if affected < 1 then (.error .depositNotPending, db1) else (.ok (), db1)

/-- Go `Database.WithdrawCreate(id, userId, url, amountCents, signature)`: the
insert into `withdrawals`, which fails on the primary key when the id exists.
The model follows the call for `amountCents` below `2 ^ 63`; `database/sql`
returns a conversion error for a larger `uint64` argument before the statement
runs. -/
def WithdrawCreate (db : Database) (now : Nat) (id userId url : String) (amountCents : Nat)
    (signature : String) : Res Unit × Database :=
  if db.withdrawals.any (fun w => decide (w.Id = id)) then (.error .sqlConstraint, db)
  else
    (.ok (),
     { db with withdrawals := db.withdrawals ++
        [{ Id := id, UserId := userId, Url := url, AmountCents := amountCents,
           Signature := signature, CreatedAt := now }] })

/-- Go `Database.UserGet(id)` with the statements of other requests running
between its `SELECT` and its `INSERT`: `between` is their effect on the store.
With `between` the identity this is `UserGet`. -/
def UserGetInterleaved (db : Database) (between : Database → Database)
    (seedBytes : List Nat) (id : String) : Res User × Database :=
  match usersSelect db id with
  | some r => (.ok { Id := id, ServerSeed := r.ServerSeed, BalanceCents := r.BalanceCents }, db)
  | none =>
    let serverSeed := hexEncodeToString seedBytes
    match usersInsert (between db) { Id := id, ServerSeed := serverSeed, BalanceCents := 0 } with
    | none => (.error .sqlConstraint, between db)
    | some db1 => (.ok { Id := id, ServerSeed := serverSeed, BalanceCents := 0 }, db1)

/-! ## `SignWithdrawal`, `DecodeHex32`, the settlement oracle (util.go) -/

/-- Go `SignWithdrawal(game, user, id, privkey)`: the signature of
`game ++ user ++ id`, copied into a 64-byte array; `sign` is `ed25519.Sign`. -/
def SignWithdrawal (sign : List Nat → List Nat → List Nat) (game user id privkey : List Nat) :
    List Nat :=
  let message := game ++ user ++ id
  let signature := sign privkey message
  signature.take 64 ++ List.replicate (64 - signature.length) 0

/-- Go `DecodeHex32(s)`: the 32 bytes that `s` encodes. -/
def DecodeHex32 (s : String) : Res (List Nat) :=
  match hexDecodeString s with
  | .ok bytes => if bytes.length ≠ 32 then .error .hex32Length else .ok bytes
  | .error e => .error e
  | .panic => .panic

/-- Go `DepositInfo`: what the settlement oracle reports for a settled deposit. -/
structure DepositInfo where
  Signature : String
  Timestamp : Nat
  deriving DecidableEq, Repr

/-! ## Request handlers (main.go) -/

def IVY_URL : String := "http://127.0.0.1:3000"

structure UserGetParams where
  Message : String
  Signature : String
  deriving DecidableEq, Repr

structure UserClient where
  Id : String
  ServerSeedHash : String
  BalanceCents : Nat
  deriving DecidableEq, Repr

/-- Go `onUserGet(p)`; `game` is `GAME_ADDRESS`, `accountSeed` the value of
`NewServerSeed()` should `UserGet` create the account. -/
def onUserGet (P : Prims) (game : List Nat) (now : Nat) (accountSeed : List Nat)
    (db : Database) (p : UserGetParams) : Res UserClient × Database :=
  match VerifyMessageB58 P now game p.Message p.Signature with
  | .panic => (.panic, db)
  | .error e => (.error e, db)
  | .ok id =>
    match UserGet db accountSeed id with
    | (.panic, db1) => (.panic, db1)
    | (.error e, db1) => (.error e, db1)
    | (.ok user, db1) =>
      match hexDecodeString user.ServerSeed with
      | .panic => (.panic, db1)
      | .error e => (.error e, db1)
      | .ok ss =>
        let ssHash := P.sha256 ss
        let ssHashHex := hexEncodeToString ssHash
        (.ok { Id := user.Id, ServerSeedHash := ssHashHex, BalanceCents := user.BalanceCents },
         db1)

structure BetParams where
  Message : String
  Signature : String
  WagerCents : Nat
  RollUnder : Bool
  Threshold : Nat
  ClientSeed : String
  deriving DecidableEq, Repr

structure BetResult where
  Won : Bool
  DeltaCents : Int
  ServerSeed : String
  Result : Nat
  deriving DecidableEq, Repr

/-- The `won` of `onBet`: `roll < p.Threshold` for roll-under,
`roll > p.Threshold` for roll-over. -/
def betWon (rollUnder : Bool) (roll threshold : Nat) : Bool :=
  if rollUnder then decide (roll < threshold) else decide (roll > threshold)

/-- Steps (6) to (10) of `onBet`, for the account `user` read in step (2) and its
decoded seed: roll, delta, clamped balance, compare-and-swap with the new seed,
bet record, result. -/
def resolveBet (P : Prims) (now : Nat) (newSeed : List Nat) (db : Database) (p : BetParams)
    (user : User) (serverSeed : List Nat) : Res BetResult × Database :=
  let roll := Roll P serverSeed (goBytes p.ClientSeed)
  let won := betWon p.RollUnder roll p.Threshold
  let under := underAmountCents p.RollUnder p.Threshold
  let delta := deltaCents won p.WagerCents under
  let nb := newBalance user.BalanceCents delta
  let updatedUser : User :=
    { Id := user.Id, ServerSeed := hexEncodeToString newSeed, BalanceCents := u64OfInt64 nb }
  match UserCompareExchange db user updatedUser with
  | (.panic, db1) => (.panic, db1)
  | (.error e, db1) => (.error e, db1)
  | (.ok _, db1) =>
    let bet : Bet :=
      { Id := 0, UserId := user.Id, AmountCents := p.WagerCents, RollUnder := p.RollUnder,
        Threshold := p.Threshold, Result := roll, Won := won, ServerSeed := user.ServerSeed,
        CreatedAt := now }
    (.ok { Won := won, DeltaCents := delta, ServerSeed := user.ServerSeed, Result := roll },
     BetCreate db1 now bet)

/-- Go `onBet(p)`; `game` is `GAME_ADDRESS`, `accountSeed` the value of
`NewServerSeed()` should `UserGet` create the account, `newSeed` the value of the
`NewServerSeed()` call of step (8). -/
def onBet (P : Prims) (game : List Nat) (now : Nat) (accountSeed newSeed : List Nat)
    (db : Database) (p : BetParams) : Res BetResult × Database :=
  if thresholdOk p.RollUnder p.Threshold = false then (.error .invalidThreshold, db) else
  match VerifyMessageB58 P now game p.Message p.Signature with
  | .panic => (.panic, db)
  | .error e => (.error e, db)
  | .ok id =>
    match UserGet db accountSeed id with
    | (.panic, db1) => (.panic, db1)
    | (.error e, db1) => (.error e, db1)
    | (.ok user, db1) =>
      if p.WagerCents > user.BalanceCents then (.error .insufficientBalance, db1) else
      if p.WagerCents > MAX_BET_CENTS then (.error .maxBet, db1) else
      if (goBytes p.ClientSeed).length < CLIENT_SEED_MIN_LENGTH
          ∨ (goBytes p.ClientSeed).length > CLIENT_SEED_MAX_LENGTH then
        (.error .clientSeedLength, db1) else
      match hexDecodeString user.ServerSeed with
      | .ok serverSeed =>
        if serverSeed.length ≠ 32 then (.error .serverSeedDecode, db1)
        else resolveBet P now newSeed db1 p user serverSeed
      | _ => (.error .serverSeedDecode, db1)

structure DepositParams where
  Message : String
  Signature : String
  AmountCents : Nat
  deriving DecidableEq, Repr

structure DepositResult where
  Id : String
  Url : String
  deriving DecidableEq, Repr

/-- Go `onDeposit(p)`; `rnd` is the 24 random bytes `GenerateID` reads. -/
def onDeposit (P : Prims) (game : List Nat) (now : Nat) (rnd : List Nat)
    (db : Database) (p : DepositParams) : Res DepositResult × Database :=
  match VerifyMessageB58 P now game p.Message p.Signature with
  | .panic => (.panic, db)
  | .error e => (.error e, db)
  | .ok userId =>
    if p.AmountCents = 0 then (.error .depositZero, db) else
    let depositIdBytes := GenerateID rnd (CentsToRaw p.AmountCents)
    let depositId := hexEncodeToString depositIdBytes
    let depositUrl := IVY_URL ++ "/deposit?game=" ++ P.base58Encode game ++ "&id=" ++ depositId
    match DepositCreate db now depositId userId depositUrl p.AmountCents with
    | (.ok _, db1) => (.ok { Id := depositId, Url := depositUrl }, db1)
    | (.error e, db1) => (.error e, db1)
    | (.panic, db1) => (.panic, db1)

structure WithdrawParams where
  Message : String
  Signature : String
  AmountCents : Nat
  deriving DecidableEq, Repr

structure WithdrawResult where
  Id : String
  Url : String
  deriving DecidableEq, Repr

/-- Go `onWithdraw(p)`; `sign` is `ed25519.Sign`, `authorityKey` is
`WITHDRAW_AUTHORITY_PRIVATE_KEY`, `accountSeed` the value of `NewServerSeed()`
should `UserGet` create the account, `rnd` the 24 random bytes `GenerateID`
reads. -/
def onWithdraw (P : Prims) (sign : List Nat → List Nat → List Nat)
    (game authorityKey : List Nat) (now : Nat) (accountSeed rnd : List Nat)
    (db : Database) (p : WithdrawParams) : Res WithdrawResult × Database :=
  match VerifyMessage P now game p.Message p.Signature with
  | .panic => (.panic, db)
  | .error e => (.error e, db)
  | .ok userAddress =>
    match UserGet db accountSeed (P.base58Encode userAddress) with
    | (.panic, db1) => (.panic, db1)
    | (.error e, db1) => (.error e, db1)
    | (.ok user, db1) =>
      if p.AmountCents = 0 then (.error .withdrawZero, db1) else
      if p.AmountCents > user.BalanceCents then (.error .insufficientBalance, db1) else
      let withdrawId := GenerateID rnd (CentsToRaw p.AmountCents)
      let withdrawIdHex := hexEncodeToString withdrawId
      let withdrawSignature :=
        hexEncodeToString (SignWithdrawal sign game userAddress withdrawId authorityKey)
      let updatedUser : User :=
        { Id := user.Id, ServerSeed := user.ServerSeed,
          BalanceCents := u64 (user.BalanceCents + 2 ^ 64 - p.AmountCents) }
      match UserCompareExchange db1 user updatedUser with
      | (.panic, db2) => (.panic, db2)
      | (.error e, db2) => (.error e, db2)
      | (.ok _, db2) =>
        let withdrawUrl := IVY_URL ++ "/withdraw?game=" ++ P.base58Encode game ++ "&id="
          ++ hexEncodeToString withdrawId ++ "&signature=" ++ withdrawSignature
          ++ "&user=" ++ user.Id
        match WithdrawCreate db2 now withdrawIdHex user.Id withdrawUrl p.AmountCents
            withdrawSignature with
        | (.ok _, db3) => (.ok { Id := withdrawIdHex, Url := withdrawUrl }, db3)
        | (.error e, db3) => (.error e, (UserCredit db3 user.Id p.AmountCents).2)
        | (.panic, db3) => (.panic, db3)

structure DepositStatusParams where
  Message : String
  Signature : String
  DepositID : String
  deriving DecidableEq, Repr

/-- Go `onDepositStatus(p)`; `oracle game id` is `FetchDepositInfo` for the game
and the decoded deposit id: an error, `none` while the deposit is not settled,
or the settlement. -/
def onDepositStatus (P : Prims) (oracle : List Nat → List Nat → Res (Option DepositInfo))
    (game : List Nat) (now : Nat) (db : Database) (p : DepositStatusParams) :
    Res Deposit × Database :=
  match VerifyMessageB58 P now game p.Message p.Signature with
  | .panic => (.panic, db)
  | .error e => (.error e, db)
  | .ok userId =>
    match DepositGet db p.DepositID with
    | .panic => (.panic, db)
    | .error e => (.error e, db)
    | .ok deposit =>
      if deposit.UserId ≠ userId then (.error .depositNotOwned, db) else
      if deposit.Completed then (.ok deposit, db) else
      match DecodeHex32 deposit.Id with
      | .panic => (.panic, db)
      | .error e => (.error e, db)
      | .ok depositId =>
        match oracle game depositId with
        | .panic => (.panic, db)
        | .error e => (.error e, db)
        | .ok none => (.ok deposit, db)
        | .ok (some depositInfo) =>
          match DepositComplete db deposit.Id depositInfo.Signature depositInfo.Timestamp with
          | (.panic, db1) => (.panic, db1)
          | (.error e, db1) => (.error e, db1)
          | (.ok _, db1) =>
            match UserCredit db1 deposit.UserId deposit.AmountCents with
            | (.panic, db2) => (.panic, db2)
            | (.error e, db2) => (.error e, (DepositUncomplete db2 deposit.Id).2)
            | (.ok _, db2) =>
              match DepositGet db2 deposit.Id with
              | .ok deposit1 => (.ok deposit1, db2)
              | .error e => (.error e, db2)
              | .panic => (.panic, db2)

/-! ## Winning outcomes -/

/-- The number of outcomes in `[0, 10000)` for which `onBet` sets `won`. -/
def winningOutcomes (rollUnder : Bool) (threshold : Nat) : Nat :=
  (List.range 10000).countP fun outcome => betWon rollUnder outcome threshold

/-! ## Concrete instances

A small instance of the primitives and of the store, on which the handlers can
be evaluated: the digest function returns the bytes of 3000 for an input of
even length and of 6000 for one of odd length, so that both a winning and a
losing roll occur. -/

def exPrims : Prims where
  sha256 := fun m => (if m.length % 2 = 0 then [184, 11] else [112, 23]) ++ List.replicate 30 0
  sha256_length := by
    intro m
    by_cases h : m.length % 2 = 0 <;> simp [h]
  sha256_byte := by
    intro m b hb
    by_cases h : m.length % 2 = 0 <;> simp [h] at hb <;> omega
  base58Decode := fun s =>
    if s = "U" then some (List.replicate 32 1)
    else if s = "G" then some (List.replicate 32 2)
    else none
  base58Encode := fun b => if b = List.replicate 32 1 then "U" else "G"
  ed25519Verify := fun _ _ sig => decide (sig = List.replicate 64 0)

def exGame : List Nat := List.replicate 32 2

def exMessage : String :=
  "Authenticate user U to game G on ivypowered.com, valid from 90 to 110"

def exSignature : String := String.mk (List.replicate 128 '0')

def exSeed : String := hexEncodeToString (List.replicate 32 5)

def exDb : Database :=
  { users := [{ Id := "U", ServerSeed := exSeed, BalanceCents := 5000 }],
    bets := [], deposits := [] }

def exNewSeed : List Nat := List.replicate 32 9

/-- A winning bet of 1000 on roll-under 5000 (the roll is 3000). -/
def exBet : BetParams :=
  { Message := exMessage, Signature := exSignature, WagerCents := 1000, RollUnder := true,
    Threshold := 5000, ClientSeed := "abcdef" }

def exBetResult : BetResult :=
  { Won := true, DeltaCents := 980, ServerSeed := exSeed, Result := 3000 }

def exDbAfterBet : Database :=
  { users := [{ Id := "U", ServerSeed := hexEncodeToString exNewSeed, BalanceCents := 5980 }],
    bets := [{ Id := 1, UserId := "U", AmountCents := 1000, RollUnder := true,
               Threshold := 5000, Result := 3000, Won := true, ServerSeed := exSeed,
               CreatedAt := 100 }],
    deposits := [] }

/-- The example store with the balance at the largest `int64` value. -/
def exDbMax : Database :=
  { users := [{ Id := "U", ServerSeed := exSeed, BalanceCents := 9223372036854775807 }],
    bets := [], deposits := [] }

/-- The example message with a window that ends before time 100. -/
def exMessageExpired : String :=
  "Authenticate user U to game G on ivypowered.com, valid from 90 to 99"

/-- A signature string of 130 hexadecimal digits (65 bytes). -/
def exSignatureLong : String := String.mk (List.replicate 130 '0')

/-- A deposit request for 1844674407371 cents, the least amount whose raw value
`amountCents * 10_000_000` exceeds `2 ^ 64 - 1`. -/
def exDeposit : DepositParams :=
  { Message := exMessage, Signature := exSignature, AmountCents := 1844674407371 }

def exRnd : List Nat := List.replicate 24 3

def exDepositId : String :=
  "03030303030303030303030303030303030303030303030380d7060000000000"

def exDepositUrl : String :=
  "http://127.0.0.1:3000/deposit?game=G&id=03030303030303030303030303030303030303030303030380d7060000000000"

/-- A signer for the examples: the signature is 64 bytes of value 7. -/
def exSign : List Nat → List Nat → List Nat := fun _ _ => List.replicate 64 7

def exKey : List Nat := List.replicate 64 8

/-- A withdrawal request for 2000 cents. -/
def exWithdraw : WithdrawParams :=
  { Message := exMessage, Signature := exSignature, AmountCents := 2000 }

/-- The identifier that `exWithdraw` gets with the random bytes `exRnd`. -/
def exWithdrawId : String :=
  "03030303030303030303030303030303030303030303030300c817a804000000"

/-- The example store in which the withdrawal identifier is already taken, so
that the insert of the withdrawal record fails. -/
def exDbTaken : Database :=
  { exDb with withdrawals :=
      [{ Id := exWithdrawId, UserId := "U", Url := "", AmountCents := 2000, Signature := "",
         CreatedAt := 90 }] }

/-- The row of the example account. -/
def exRow : User := { Id := "U", ServerSeed := exSeed, BalanceCents := 5000 }

/-- A store without accounts. -/
def exDbEmpty : Database := { users := [], bets := [], deposits := [] }

/-- Another first access that creates the account "U" between the lookup and the
insert of `UserGet`. -/
def exOtherAccess (db : Database) : Database :=
  { db with users := db.users ++ [{ Id := "U", ServerSeed := exSeed, BalanceCents := 0 }] }

/-- A pending deposit of 700 cents owned by "U". -/
def exPending : Deposit :=
  { Id := "03030303030303030303030303030303030303030303030300863ba101000000", UserId := "U",
    Url := "", AmountCents := 700, Completed := false, Signature := none, CreatedAt := 100,
    CompletedAt := none }

def exDbPending : Database := { exDb with deposits := [exPending] }

/-- An oracle that reports every deposit as settled at time 105. -/
def exOracle : List Nat → List Nat → Res (Option DepositInfo) :=
  fun _ _ => .ok (some { Signature := "ab", Timestamp := 105 })

def exStatus : DepositStatusParams :=
  { Message := exMessage, Signature := exSignature, DepositID := exPending.Id }

/-- A winning roll-over bet of 500 on threshold 2000 (the roll is 3000). -/
def exBetOver : BetParams :=
  { Message := exMessage, Signature := exSignature, WagerCents := 500, RollUnder := false,
    Threshold := 2000, ClientSeed := "abcdef" }

/-- An instance of the primitives whose digest depends on the content of its
input: the first digest byte is the first input byte, the others are 0. -/
def exPrimsByte : Prims where
  sha256 := fun m => (m.headD 0 % 256) :: List.replicate 31 0
  sha256_length := by intro m; simp
  sha256_byte := by
    intro m b hb
    simp only [List.mem_cons, List.mem_replicate] at hb
    omega
  base58Decode := exPrims.base58Decode
  base58Encode := exPrims.base58Encode
  ed25519Verify := exPrims.ed25519Verify

/-- The seed that `NewServerSeed()` returns when `UserGet` creates the account
in the example of a first bet. -/
def exAccountSeed : List Nat := List.replicate 32 5

/-- A bet of 0 cents on roll-under 5000. -/
def exBetZero : BetParams :=
  { Message := exMessage, Signature := exSignature, WagerCents := 0, RollUnder := true,
    Threshold := 5000, ClientSeed := "abcdef" }

/-! # Verified properties -/

/-! ## Fixed-width arithmetic -/

theorem u64_eq_self {n : Nat} (h : n < 2 ^ 64) : u64 n = n := Nat.mod_eq_of_lt h

theorem wrapInt64_eq_self {z : Int} (h1 : -(2 ^ 63) ≤ z) (h2 : z < 2 ^ 63) :
    wrapInt64 z = z := by
  unfold wrapInt64
  omega

theorem int64OfU64_eq_self {n : Nat} (h : n < 2 ^ 63) : int64OfU64 n = (n : Int) := by
  unfold int64OfU64
  rw [u64_eq_self (by omega)]
  exact wrapInt64_eq_self (by omega) (by omega)

/-! ## The payout arithmetic -/

theorem thresholdOk_iff (rollUnder : Bool) (t : Nat) :
    thresholdOk rollUnder t = true ↔
      (if rollUnder then 1 ≤ t ∧ t ≤ 9802 else 197 ≤ t ∧ t ≤ 9899) := by
  cases rollUnder
  · simp [thresholdOk, OVER_MIN, OVER_MAX]
  · simp [thresholdOk, UNDER_MIN, UNDER_MAX]
    omega

theorem underAmountCents_eq (rollUnder : Bool) (t : Nat) (ht : thresholdOk rollUnder t = true) :
    underAmountCents rollUnder t = (if rollUnder then t else 10000 - t) := by
  rw [thresholdOk_iff] at ht
  cases rollUnder <;> simp [underAmountCents, u64, u16] at ht ⊢ <;> omega

theorem underAmountCents_le (rollUnder : Bool) (t : Nat) (ht : thresholdOk rollUnder t = true) :
    1 ≤ underAmountCents rollUnder t ∧ underAmountCents rollUnder t ≤ 10000 := by
  rw [underAmountCents_eq rollUnder t ht]
  rw [thresholdOk_iff] at ht
  cases rollUnder <;> simp at ht ⊢ <;> omega

theorem payoutCents_eq (wager under : Nat) (hw : wager ≤ MAX_BET_CENTS) (hu : under ≤ 10000) :
    payoutCents wager under = wager * 10000 * (100 - 1) / (under * 100) := by
  unfold MAX_BET_CENTS at hw
  unfold payoutCents HOUSE_EDGE_PCT
  rw [u64_eq_self (n := wager * 10000) (by omega), u64_eq_self (n := under * 100) (by omega),
    u64_eq_self (by omega)]

theorem payoutCents_le (wager under : Nat) (hw : wager ≤ MAX_BET_CENTS) (hu : under ≤ 10000) :
    payoutCents wager under ≤ 29700000000000 := by
  rw [payoutCents_eq wager under hw hu]
  unfold MAX_BET_CENTS at hw
  exact le_trans (Nat.div_le_self _ _) (by omega)

theorem deltaCents_win (wager under : Nat) (hw : wager ≤ MAX_BET_CENTS) (hu : under ≤ 10000) :
    deltaCents true wager under = (payoutCents wager under : Int) - (wager : Int) := by
  have hp := payoutCents_le wager under hw hu
  unfold MAX_BET_CENTS at hw
  simp only [deltaCents, if_true]
  rw [int64OfU64_eq_self (by omega), int64OfU64_eq_self (by omega)]
  exact wrapInt64_eq_self (by omega) (by omega)

theorem deltaCents_loss (wager under : Nat) (hw : wager ≤ MAX_BET_CENTS) :
    deltaCents false wager under = -(wager : Int) := by
  unfold MAX_BET_CENTS at hw
  simp only [deltaCents, Bool.false_eq_true, if_false]
  rw [int64OfU64_eq_self (by omega)]
  exact wrapInt64_eq_self (by omega) (by omega)

/-! ## Inversion of a successful `onBet` -/

theorem resolveBet_ok {P : Prims} {now : Nat} {newSeed : List Nat} {db db' : Database}
    {p : BetParams} {user : User} {seed : List Nat} {r : BetResult}
    (h : resolveBet P now newSeed db p user seed = (.ok r, db')) :
    r = { Won := betWon p.RollUnder (Roll P seed (goBytes p.ClientSeed)) p.Threshold,
          DeltaCents := deltaCents
            (betWon p.RollUnder (Roll P seed (goBytes p.ClientSeed)) p.Threshold)
            p.WagerCents (underAmountCents p.RollUnder p.Threshold),
          ServerSeed := user.ServerSeed,
          Result := Roll P seed (goBytes p.ClientSeed) }
    ∧ ∃ db1, UserCompareExchange db user
          { Id := user.Id, ServerSeed := hexEncodeToString newSeed,
            BalanceCents := u64OfInt64 (newBalance user.BalanceCents
              (deltaCents (betWon p.RollUnder (Roll P seed (goBytes p.ClientSeed)) p.Threshold)
                p.WagerCents (underAmountCents p.RollUnder p.Threshold))) } = (.ok (), db1)
        ∧ db' = BetCreate db1 now
          { Id := 0, UserId := user.Id, AmountCents := p.WagerCents, RollUnder := p.RollUnder,
            Threshold := p.Threshold, Result := Roll P seed (goBytes p.ClientSeed),
            Won := betWon p.RollUnder (Roll P seed (goBytes p.ClientSeed)) p.Threshold,
            ServerSeed := user.ServerSeed, CreatedAt := now } := by
  unfold resolveBet at h
  simp only at h
  split at h
  · simp at h
  · simp at h
  · next u db1 hcas =>
    simp only [Prod.mk.injEq, Res.ok.injEq] at h
    exact ⟨h.1.symm, db1, hcas, h.2.symm⟩

theorem onBet_ok {P : Prims} {game : List Nat} {now : Nat} {accountSeed newSeed : List Nat}
    {db db' : Database} {p : BetParams} {r : BetResult}
    (h : onBet P game now accountSeed newSeed db p = (.ok r, db')) :
    thresholdOk p.RollUnder p.Threshold = true ∧
    ∃ id user db1 seed,
      VerifyMessageB58 P now game p.Message p.Signature = .ok id
      ∧ UserGet db accountSeed id = (.ok user, db1)
      ∧ p.WagerCents ≤ user.BalanceCents
      ∧ p.WagerCents ≤ MAX_BET_CENTS
      ∧ hexDecodeString user.ServerSeed = .ok seed
      ∧ seed.length = 32
      ∧ resolveBet P now newSeed db1 p user seed = (.ok r, db') := by
  unfold onBet at h
  split at h
  · simp at h
  next hth =>
  split at h
  · simp at h
  · simp at h
  next id hid =>
  split at h
  · simp at h
  · simp at h
  next user db1 hget =>
  split at h
  · simp at h
  next hw =>
  split at h
  · simp at h
  next hm =>
  split at h
  · simp at h
  next hl =>
  split at h
  · next seed hseed =>
    split at h
    · simp at h
    next hlen =>
    refine ⟨by simpa using hth, id, user, db1, seed, hid, hget, by omega, by omega, hseed,
      by simpa using hlen, h⟩
  · simp at h

/-! ## C1: the payout law -/

/-- C1. For every wager of at most `MAX_BET_CENTS` and every threshold accepted
for its direction, the 64-bit arithmetic of `onBet` is exact: no product
exceeds `2 ^ 64`, the divisor is positive, the basis is the threshold
(roll-under) or `10000 - threshold` (roll-over), the payout is
`floor (wager * 10000 * (100 - 1) / (basis * 100))` and fits `int64`, the delta
is `payout - wager` on a win and `-wager` on a loss; and every bet that `onBet`
resolves returns exactly this delta. -/
theorem onBet_payout_exact (wager threshold : Nat) (rollUnder : Bool)
    (hw : wager ≤ MAX_BET_CENTS) (ht : thresholdOk rollUnder threshold = true) :
    underAmountCents rollUnder threshold = (if rollUnder then threshold else 10000 - threshold)
    ∧ 0 < underAmountCents rollUnder threshold * 100
    ∧ wager * 10000 * (100 - HOUSE_EDGE_PCT) < 2 ^ 64
    ∧ underAmountCents rollUnder threshold * 100 < 2 ^ 64
    ∧ payoutCents wager (underAmountCents rollUnder threshold)
        = wager * 10000 * (100 - 1) / ((if rollUnder then threshold else 10000 - threshold) * 100)
    ∧ payoutCents wager (underAmountCents rollUnder threshold) < 2 ^ 63
    ∧ deltaCents true wager (underAmountCents rollUnder threshold)
        = (payoutCents wager (underAmountCents rollUnder threshold) : Int) - (wager : Int)
    ∧ deltaCents false wager (underAmountCents rollUnder threshold) = -(wager : Int)
    ∧ ∀ (P : Prims) (game : List Nat) (now : Nat) (accountSeed newSeed : List Nat)
        (db db' : Database) (p : BetParams) (r : BetResult),
        p.WagerCents = wager → p.RollUnder = rollUnder → p.Threshold = threshold →
        onBet P game now accountSeed newSeed db p = (.ok r, db') →
        r.DeltaCents =
          if r.Won then
            ((wager * 10000 * (100 - 1)
              / ((if rollUnder then threshold else 10000 - threshold) * 100) : Nat) : Int)
              - (wager : Int)
          else -(wager : Int) := by
  have hu := underAmountCents_le rollUnder threshold ht
  have hp := payoutCents_le wager _ hw hu.2
  have hpay : payoutCents wager (underAmountCents rollUnder threshold)
      = wager * 10000 * (100 - 1) / ((if rollUnder then threshold else 10000 - threshold) * 100) := by
    rw [payoutCents_eq wager _ hw hu.2, underAmountCents_eq rollUnder threshold ht]
  refine ⟨underAmountCents_eq rollUnder threshold ht, by omega, ?_, by omega, hpay, by omega,
    deltaCents_win wager _ hw hu.2, deltaCents_loss wager _ hw, ?_⟩
  · unfold MAX_BET_CENTS at hw; unfold HOUSE_EDGE_PCT; omega
  · intro P game now accountSeed newSeed db db' p r hpw hpr hpt h
    obtain ⟨_, id, user, db1, seed, _, _, _, _, _, _, hres⟩ := onBet_ok h
    have hr := (resolveBet_ok hres).1
    rw [hpw, hpr, hpt] at hr
    rw [hr]
    simp only
    cases hwon : betWon rollUnder (Roll P seed (goBytes p.ClientSeed)) threshold
    · simp only [Bool.false_eq_true, if_false]
      exact deltaCents_loss wager _ hw
    · simp only [if_true]
      rw [deltaCents_win wager _ hw hu.2, hpay]

/-- The payout law at wager 1000, roll-under, threshold 5000: payout 1980, delta
`+980` on a win and `-1000` on a loss, also as returned by `onBet` on the example
store. -/
theorem onBet_payout_exact_witness :
    (1000 ≤ MAX_BET_CENTS ∧ thresholdOk true 5000 = true)
    ∧ payoutCents 1000 (underAmountCents true 5000) = 1980
    ∧ deltaCents true 1000 (underAmountCents true 5000) = 980
    ∧ deltaCents false 1000 (underAmountCents true 5000) = -1000
    ∧ (onBet exPrims exGame 100 [] (List.replicate 32 9) exDb
        ⟨exMessage, exSignature, 1000, true, 5000, "abcdef"⟩).1
        = .ok { Won := true, DeltaCents := 980, ServerSeed := exSeed, Result := 3000 }
    ∧ (onBet exPrims exGame 100 [] (List.replicate 32 9) exDb
        ⟨exMessage, exSignature, 1000, true, 5000, "abcdefg"⟩).1
        = .ok { Won := false, DeltaCents := -1000, ServerSeed := exSeed, Result := 6000 } := by
  obtain ⟨_, _, _, _, h5, _, h7, h8, _⟩ :=
    onBet_payout_exact 1000 5000 true (by decide) (by decide)
  refine ⟨⟨by decide, by decide⟩, by rw [h5]; decide, ?_, by rw [h8]; decide, by decide,
    by decide⟩
  rw [h7, h5]; decide

/-! ## Little-endian words -/

theorem lor_shiftLeft_eq_add {acc b k : Nat} (h : acc < 2 ^ k) :
    acc ||| (b <<< k) = acc + b * 2 ^ k := by
  rw [Nat.shiftLeft_eq, Nat.or_comm, Nat.mul_comm b, ← Nat.mul_add_lt_is_or h, Nat.add_comm]

theorem getD_lt_of_forall_lt {b : List Nat} (hb : ∀ x ∈ b, x < 256) (i : Nat) :
    b.getD i 0 < 256 := by
  rw [List.getD_eq_getElem?_getD]
  cases h : b[i]? with
  | none => simp
  | some x => simpa using hb x (List.getElem?_mem h)

theorem leUint64_eq_leValue (b : List Nat) (hb : ∀ x ∈ b, x < 256) :
    leUint64 b = leValue b ∧ leValue b < 2 ^ 64 := by
  have h0 := getD_lt_of_forall_lt hb 0
  have h1 := getD_lt_of_forall_lt hb 1
  have h2 := getD_lt_of_forall_lt hb 2
  have h3 := getD_lt_of_forall_lt hb 3
  have h4 := getD_lt_of_forall_lt hb 4
  have h5 := getD_lt_of_forall_lt hb 5
  have h6 := getD_lt_of_forall_lt hb 6
  have h7 := getD_lt_of_forall_lt hb 7
  unfold leUint64 leValue
  generalize b.getD 0 0 = b0 at *
  generalize b.getD 1 0 = b1 at *
  generalize b.getD 2 0 = b2 at *
  generalize b.getD 3 0 = b3 at *
  generalize b.getD 4 0 = b4 at *
  generalize b.getD 5 0 = b5 at *
  generalize b.getD 6 0 = b6 at *
  generalize b.getD 7 0 = b7 at *
  have e8 : ∀ x : Nat, x <<< 8 = x * 2 ^ 8 := fun x => Nat.shiftLeft_eq x 8
  have e16 : ∀ x : Nat, x <<< 16 = x * 2 ^ 16 := fun x => Nat.shiftLeft_eq x 16
  have e24 : ∀ x : Nat, x <<< 24 = x * 2 ^ 24 := fun x => Nat.shiftLeft_eq x 24
  have e32 : ∀ x : Nat, x <<< 32 = x * 2 ^ 32 := fun x => Nat.shiftLeft_eq x 32
  have e40 : ∀ x : Nat, x <<< 40 = x * 2 ^ 40 := fun x => Nat.shiftLeft_eq x 40
  have e48 : ∀ x : Nat, x <<< 48 = x * 2 ^ 48 := fun x => Nat.shiftLeft_eq x 48
  have e56 : ∀ x : Nat, x <<< 56 = x * 2 ^ 56 := fun x => Nat.shiftLeft_eq x 56
  rw [u64_eq_self (n := b0) (by omega), u64_eq_self (n := b1) (by omega),
    u64_eq_self (n := b2) (by omega), u64_eq_self (n := b3) (by omega),
    u64_eq_self (n := b4) (by omega), u64_eq_self (n := b5) (by omega),
    u64_eq_self (n := b6) (by omega), u64_eq_self (n := b7) (by omega)]
  rw [u64_eq_self (n := b1 <<< 8) (by rw [e8]; omega),
    u64_eq_self (n := b2 <<< 16) (by rw [e16]; omega),
    u64_eq_self (n := b3 <<< 24) (by rw [e24]; omega),
    u64_eq_self (n := b4 <<< 32) (by rw [e32]; omega),
    u64_eq_self (n := b5 <<< 40) (by rw [e40]; omega),
    u64_eq_self (n := b6 <<< 48) (by rw [e48]; omega),
    u64_eq_self (n := b7 <<< 56) (by rw [e56]; omega)]
  rw [lor_shiftLeft_eq_add (k := 8) (by omega)]
  rw [lor_shiftLeft_eq_add (k := 16) (by omega)]
  rw [lor_shiftLeft_eq_add (k := 24) (by omega)]
  rw [lor_shiftLeft_eq_add (k := 32) (by omega)]
  rw [lor_shiftLeft_eq_add (k := 40) (by omega)]
  rw [lor_shiftLeft_eq_add (k := 48) (by omega)]
  rw [lor_shiftLeft_eq_add (k := 56) (by omega)]
  constructor <;> omega

/-! ## C2: the roll -/

/-- C2. For all server and client seeds (byte strings of any length),
`Roll` is the little-endian 64-bit integer formed from bytes `[0..8)` of the
SHA-256 digest of `serverSeed ++ clientSeed`, reduced modulo 10000; that
integer fits 64 bits, the conversion to `uint16` loses nothing, and the result
lies in `[0, 10000)`.  Being a function of the two seeds (and of the digest
function), `Roll` gives the same outcome for the same inputs. -/
theorem Roll_eq_digest_mod (P : Prims) (serverSeed clientSeed : List Nat) :
    Roll P serverSeed clientSeed
        = leValue ((P.sha256 (serverSeed ++ clientSeed)).take 8) % 10000
    ∧ leValue ((P.sha256 (serverSeed ++ clientSeed)).take 8) < 2 ^ 64
    ∧ ((P.sha256 (serverSeed ++ clientSeed)).take 8).length = 8
    ∧ Roll P serverSeed clientSeed < 10000 := by
  have hb : ∀ x ∈ (P.sha256 (serverSeed ++ clientSeed)).take 8, x < 256 :=
    fun x hx => P.sha256_byte _ x (List.mem_of_mem_take hx)
  obtain ⟨heq, hlt⟩ := leUint64_eq_leValue _ hb
  have hroll : Roll P serverSeed clientSeed
      = leValue ((P.sha256 (serverSeed ++ clientSeed)).take 8) % 10000 := by
    unfold Roll
    simp only [heq, u16]
    omega
  refine ⟨hroll, hlt, ?_, ?_⟩
  · rw [List.length_take, P.sha256_length]; rfl
  · rw [hroll]; omega

/-! ## The `users` table -/

theorem casMatches_iff (expected r : User) : casMatches expected r = true ↔ r = expected := by
  cases r; cases expected
  simp [casMatches, and_assoc]

theorem usersSelect_some_mem {db : Database} {id : String} {r : User}
    (h : usersSelect db id = some r) : r ∈ db.users ∧ r.Id = id := by
  unfold usersSelect at h
  exact ⟨List.mem_of_find?_eq_some h, by simpa using List.find?_some h⟩

theorem usersSelect_eq_some_iff {db : Database} (hpk : (db.users.map User.Id).Nodup)
    (r : User) : usersSelect db r.Id = some r ↔ r ∈ db.users := by
  constructor
  · intro h
    exact (usersSelect_some_mem h).1
  · intro hr
    cases hs : usersSelect db r.Id with
    | none =>
      unfold usersSelect at hs
      rw [List.find?_eq_none] at hs
      exact absurd (by simp) (hs r hr)
    | some r' =>
      obtain ⟨hmem, hid⟩ := usersSelect_some_mem hs
      rw [List.inj_on_of_nodup_map hpk hmem hr hid]

theorem usersCasUpdate_ids (users : List User) (expected desired : User) :
    (usersCasUpdate users expected desired).1.map User.Id = users.map User.Id := by
  unfold usersCasUpdate
  simp only [List.map_map]
  apply List.map_congr_left
  intro r _
  simp only [Function.comp]
  split <;> rfl

theorem usersCasUpdate_of_not_mem (users : List User) (expected desired : User)
    (h : expected ∉ users) : usersCasUpdate users expected desired = (users, 0) := by
  unfold usersCasUpdate
  have h1 : ∀ r ∈ users, casMatches expected r = false := by
    intro r hr
    cases hc : casMatches expected r with
    | false => rfl
    | true => exact absurd ((casMatches_iff expected r).1 hc ▸ hr) h
  refine Prod.ext ?_ ?_
  · simp only
    conv_rhs => rw [← List.map_id users]
    apply List.map_congr_left
    intro r hr
    simp [h1 r hr]
  · simp only
    rw [List.countP_eq_zero]
    intro r hr
    simp [h1 r hr]

theorem usersCasUpdate_of_mem (users : List User) (expected desired : User)
    (hpk : (users.map User.Id).Nodup) (h : expected ∈ users) (hid : expected.Id = desired.Id) :
    (usersCasUpdate users expected desired).1
        = users.map (fun r => if r.Id = expected.Id then desired else r)
    ∧ 1 ≤ (usersCasUpdate users expected desired).2 := by
  unfold usersCasUpdate
  constructor
  · simp only
    apply List.map_congr_left
    intro r hr
    by_cases hc : r.Id = expected.Id
    · have hre : r = expected := List.inj_on_of_nodup_map hpk hr h hc
      subst hre
      have : casMatches r r = true := (casMatches_iff r r).2 rfl
      simp only [this, if_true]
      cases r; cases desired
      simp_all
    · have : casMatches expected r = false := by
        cases hm : casMatches expected r with
        | false => rfl
        | true => exact absurd (congrArg User.Id ((casMatches_iff expected r).1 hm)) hc
      simp [this, hc]
  · simp only
    exact List.countP_pos_iff.2 ⟨expected, h, (casMatches_iff expected expected).2 rfl⟩

theorem usersSelect_map_replace (db : Database) (expected desired : User)
    (hid : expected.Id = desired.Id) (id : String) :
    (db.users.map (fun r => if r.Id = expected.Id then desired else r)).find?
        (fun r => decide (r.Id = id))
      = (usersSelect db id).map (fun r => if r.Id = expected.Id then desired else r) := by
  unfold usersSelect
  rw [List.find?_map]
  have hfun : ((fun r : User => decide (r.Id = id))
      ∘ fun r => if r.Id = expected.Id then desired else r)
      = fun r : User => decide (r.Id = id) := by
    funext r
    simp only [Function.comp]
    split
    · next h => simp [← hid, h]
    · rfl
  rw [hfun]

theorem UserCompareExchange_of_mem (db : Database) (expected desired : User)
    (hpk : (db.users.map User.Id).Nodup) (hid : expected.Id = desired.Id)
    (h : expected ∈ db.users) :
    UserCompareExchange db expected desired
      = (.ok (), { db with
          users := db.users.map (fun r => if r.Id = expected.Id then desired else r) }) := by
  obtain ⟨h1, h2⟩ := usersCasUpdate_of_mem db.users expected desired hpk h hid
  unfold UserCompareExchange
  rw [if_neg (by simpa using hid)]
  generalize usersCasUpdate db.users expected desired = out at h1 h2
  obtain ⟨users1, affected⟩ := out
  simp only at h1 h2 ⊢
  rw [if_neg (by omega), h1]

theorem UserCompareExchange_of_not_mem (db : Database) (expected desired : User)
    (hid : expected.Id = desired.Id) (h : expected ∉ db.users) :
    UserCompareExchange db expected desired = (.error .casNoMatchingRow, db) := by
  unfold UserCompareExchange
  rw [if_neg (by simpa using hid), usersCasUpdate_of_not_mem db.users expected desired h]
  simp

theorem UserCompareExchange_of_ne (db : Database) (expected desired : User)
    (hid : expected.Id ≠ desired.Id) :
    UserCompareExchange db expected desired = (.error .casMismatchingIds, db) := by
  unfold UserCompareExchange
  rw [if_pos hid]

/-! ## C4: compare-and-swap -/

/-- C4. Over a `users` table whose ids are unique (the primary key), and for
snapshots whose balances are below `2 ^ 63` (integers that the store holds and
that `database/sql` passes to the statement),
`UserCompareExchange expected desired` succeeds if and only if the two ids are
equal and the row stored for that id carries exactly the seed and balance of
`expected`.  On success the row for that id becomes `desired` and every other
row, and every other table, is unchanged; on failure (a conflict or mismatching
ids) the whole store is unchanged and the error is the one of the failing
check. -/
theorem UserCompareExchange_spec (db : Database) (expected desired : User)
    (hpk : (db.users.map User.Id).Nodup)
    (_hexpected : expected.BalanceCents < 2 ^ 63) (_hdesired : desired.BalanceCents < 2 ^ 63) :
    ((UserCompareExchange db expected desired).1 = .ok () ↔
      expected.Id = desired.Id ∧
        ∃ r, usersSelect db expected.Id = some r ∧ r.ServerSeed = expected.ServerSeed
          ∧ r.BalanceCents = expected.BalanceCents)
    ∧ ((UserCompareExchange db expected desired).1 = .ok () →
        (UserCompareExchange db expected desired).2.users
            = db.users.map (fun r => if r.Id = expected.Id then desired else r)
        ∧ usersSelect (UserCompareExchange db expected desired).2 expected.Id = some desired
        ∧ (∀ id, id ≠ expected.Id →
            usersSelect (UserCompareExchange db expected desired).2 id = usersSelect db id)
        ∧ (UserCompareExchange db expected desired).2.bets = db.bets
        ∧ (UserCompareExchange db expected desired).2.deposits = db.deposits)
    ∧ ((UserCompareExchange db expected desired).1 ≠ .ok () →
        (UserCompareExchange db expected desired).2 = db
        ∧ ((UserCompareExchange db expected desired).1 = .error .casMismatchingIds
            ∨ (UserCompareExchange db expected desired).1 = .error .casNoMatchingRow)) := by
  have hrow : (∃ r, usersSelect db expected.Id = some r ∧ r.ServerSeed = expected.ServerSeed
      ∧ r.BalanceCents = expected.BalanceCents) ↔ expected ∈ db.users := by
    rw [← usersSelect_eq_some_iff hpk]
    constructor
    · rintro ⟨r, hr, hs, hb⟩
      have hrid := (usersSelect_some_mem hr).2
      rw [hr]
      cases r; cases expected
      simp_all
    · intro h
      exact ⟨expected, h, rfl, rfl⟩
  rw [hrow]
  by_cases hid : expected.Id = desired.Id
  · by_cases hmem : expected ∈ db.users
    · rw [UserCompareExchange_of_mem db expected desired hpk hid hmem]
      refine ⟨by simp [hid, hmem], fun _ => ⟨rfl, ?_, ?_, rfl, rfl⟩, by simp⟩
      · have hsel := (usersSelect_eq_some_iff hpk expected).2 hmem
        show List.find? _ _ = some desired
        rw [usersSelect_map_replace db expected desired hid, hsel]
        simp
      · intro id hne
        show List.find? _ _ = usersSelect db id
        rw [usersSelect_map_replace db expected desired hid]
        cases hs : usersSelect db id with
        | none => rfl
        | some r =>
          have := (usersSelect_some_mem hs).2
          simp only [Option.map_some', Option.some.injEq]
          rw [if_neg (by rw [this]; exact hne)]
    · rw [UserCompareExchange_of_not_mem db expected desired hid hmem]
      simp [hmem]
  · rw [UserCompareExchange_of_ne db expected desired hid]
    simp [hid]

/-- The compare-and-swap on the example store: the matching snapshot succeeds
and installs the desired row; a stale snapshot fails and changes nothing. -/
theorem UserCompareExchange_spec_witness :
    ((exDb.users.map User.Id).Nodup ∧ (5000 : Nat) < 2 ^ 63 ∧ (4999 : Nat) < 2 ^ 63
      ∧ (4000 : Nat) < 2 ^ 63)
    ∧ UserCompareExchange exDb ⟨"U", exSeed, 5000⟩ ⟨"U", "aa", 4000⟩
        = (.ok (), { exDb with users := [⟨"U", "aa", 4000⟩] })
    ∧ UserCompareExchange exDb ⟨"U", exSeed, 4999⟩ ⟨"U", "aa", 4000⟩
        = (.error .casNoMatchingRow, exDb) := by
  have hpk : (exDb.users.map User.Id).Nodup := by decide
  have h1 := UserCompareExchange_spec exDb ⟨"U", exSeed, 5000⟩ ⟨"U", "aa", 4000⟩ hpk
    (by decide) (by decide)
  have h2 := UserCompareExchange_spec exDb ⟨"U", exSeed, 4999⟩ ⟨"U", "aa", 4000⟩ hpk
    (by decide) (by decide)
  refine ⟨⟨hpk, by decide, by decide, by decide⟩, ?_, ?_⟩
  · have hok : (UserCompareExchange exDb ⟨"U", exSeed, 5000⟩ ⟨"U", "aa", 4000⟩).1 = .ok () :=
      h1.1.2 ⟨rfl, ⟨"U", exSeed, 5000⟩, by decide, rfl, rfl⟩
    obtain ⟨hu, _, _, hb, hd⟩ := h1.2.1 hok
    have hw : (UserCompareExchange exDb ⟨"U", exSeed, 5000⟩ ⟨"U", "aa", 4000⟩).2.withdrawals
        = exDb.withdrawals := by decide
    refine Prod.ext hok ?_
    cases hout : (UserCompareExchange exDb ⟨"U", exSeed, 5000⟩ ⟨"U", "aa", 4000⟩).2
    rw [hout] at hu hb hd hw
    simp only at hu hb hd hw
    subst hu hb hd hw
    decide
  · have hne : (UserCompareExchange exDb ⟨"U", exSeed, 4999⟩ ⟨"U", "aa", 4000⟩).1 ≠ .ok () := by
      intro hok
      obtain ⟨_, r, hr, _, hb⟩ := h2.1.1 hok
      have : usersSelect exDb "U" = some ⟨"U", exSeed, 5000⟩ := by decide
      rw [show (⟨"U", exSeed, 4999⟩ : User).Id = "U" from rfl, this] at hr
      cases hr
      simp at hb
    obtain ⟨hdb, herr⟩ := h2.2.2 hne
    refine Prod.ext ?_ hdb
    rcases herr with herr | herr
    · rw [herr]
      exact absurd herr (by decide)
    · exact herr

/-! ## `encoding/hex`: decoding an encoding -/

theorem take_succ_set (dst : List Nat) (i v : Nat) (h : i < dst.length) :
    (dst.set i v).take (i + 1) = dst.take i ++ [v] := by
  rw [List.set_eq_take_append_cons_drop, if_pos h, List.take_append_eq_append_take]
  simp [List.length_take, Nat.min_eq_left (le_of_lt h)]

theorem utf8_hexDigit (n : Nat) (h : n < 16) :
    (String.utf8EncodeChar (hexDigit n)).map (fun b => b.toNat) = [hexByte n] := by
  interval_cases n <;> rfl

theorem fromHexChar_hexByte (n : Nat) (h : n < 16) : fromHexChar (hexByte n) = some n := by
  interval_cases n <;> rfl

theorem nibbles_join (v : Nat) (h : v < 256) :
    (((v % 256) >>> 4) <<< 4 ||| ((v % 256) &&& 15)) % 256 = v := by
  interval_cases v <;> rfl

theorem nibble_lt (v : Nat) : (v % 256) >>> 4 < 16 ∧ (v % 256) &&& 15 < 16 := by
  constructor
  · rw [Nat.shiftRight_eq_div_pow]; omega
  · exact lt_of_le_of_lt Nat.and_le_right (by omega)

theorem goBytes_hexEncodeToString (bs : List Nat) :
    goBytes (hexEncodeToString bs)
      = bs.flatMap fun v => [hexByte ((v % 256) >>> 4), hexByte ((v % 256) &&& 15)] := by
  unfold goBytes hexEncodeToString
  induction bs with
  | nil => rfl
  | cons v bs ih =>
    simp only [List.flatMap_cons, List.flatMap_append, List.cons_append, List.nil_append,
      List.flatMap_nil, List.append_nil] at ih ⊢
    rw [ih, utf8_hexDigit _ (nibble_lt v).1, utf8_hexDigit _ (nibble_lt v).2]
    rfl

theorem hexDecodeLoop_encode (bs : List Nat) (hb : ∀ b ∈ bs, b < 256) :
    ∀ (i : Nat) (dst : List Nat), i + bs.length ≤ dst.length →
      hexDecodeLoop (bs.flatMap fun v => [hexByte ((v % 256) >>> 4), hexByte ((v % 256) &&& 15)])
          i dst
        = .ok (i + bs.length, dst.take i ++ bs ++ dst.drop (i + bs.length)) := by
  induction bs with
  | nil =>
    intro i dst _
    simp [hexDecodeLoop]
  | cons v bs ih =>
    intro i dst hlen
    have hv : v < 256 := hb v (List.mem_cons_self _ _)
    simp only [List.length_cons] at hlen
    simp only [List.flatMap_cons, List.cons_append, List.nil_append]
    rw [hexDecodeLoop, fromHexChar_hexByte _ (nibble_lt v).1,
      fromHexChar_hexByte _ (nibble_lt v).2]
    simp only
    rw [if_pos (by omega), nibbles_join v hv,
      ih (fun b hb' => hb b (List.mem_cons_of_mem _ hb')) (i + 1) (dst.set i v)
        (by rw [List.length_set]; omega)]
    rw [take_succ_set dst i v (by omega), List.drop_set_of_lt v dst (by omega)]
    simp only [List.length_cons, List.append_assoc, List.singleton_append]
    congr 2
    · omega
    · congr 3
      omega

theorem hexDecodeString_hexEncodeToString (bs : List Nat) (hb : ∀ b ∈ bs, b < 256) :
    hexDecodeString (hexEncodeToString bs) = .ok bs := by
  unfold hexDecodeString hexDecode
  rw [goBytes_hexEncodeToString]
  have hl : (bs.flatMap fun v => [hexByte ((v % 256) >>> 4), hexByte ((v % 256) &&& 15)]).length
      = 2 * bs.length := by
    induction bs with
    | nil => rfl
    | cons v bs ih =>
      simp only [List.flatMap_cons, List.length_append, List.length_cons, List.length_nil]
      rw [ih (fun b hb' => hb b (List.mem_cons_of_mem _ hb'))]
      omega
  rw [hexDecodeLoop_encode bs hb 0 _ (by rw [hl]; simp)]
  simp [hl]

/-! ## Reading the account back -/

theorem UserCompareExchange_ok {db db1 : Database} {expected desired : User}
    (h : UserCompareExchange db expected desired = (.ok (), db1)) :
    expected.Id = desired.Id
    ∧ db1 = { db with users := (usersCasUpdate db.users expected desired).1 } := by
  unfold UserCompareExchange at h
  split at h
  · simp at h
  next hid =>
  generalize usersCasUpdate db.users expected desired = out at h
  obtain ⟨users1, affected⟩ := out
  simp only at h
  split at h
  · simp at h
  · simp only [Prod.mk.injEq, true_and] at h
    exact ⟨by simpa using hid, h.symm⟩

theorem usersSelect_casUpdate (db : Database) (expected desired : User) (id : String) :
    (usersCasUpdate db.users expected desired).1.find? (fun r => decide (r.Id = id))
      = (usersSelect db id).map (fun r =>
          if casMatches expected r then
            { r with ServerSeed := desired.ServerSeed, BalanceCents := desired.BalanceCents }
          else r) := by
  unfold usersSelect usersCasUpdate
  simp only
  rw [List.find?_map]
  have hfun : ((fun r : User => decide (r.Id = id))
      ∘ fun r => if casMatches expected r then
            { r with ServerSeed := desired.ServerSeed, BalanceCents := desired.BalanceCents }
          else r)
      = fun r : User => decide (r.Id = id) := by
    funext r
    simp only [Function.comp]
    split <;> rfl
  rw [hfun]

theorem UserGet_of_select {db : Database} {id : String} {row : User}
    (h : usersSelect db id = some row) (seedBytes : List Nat) :
    UserGet db seedBytes id = (.ok row, db) := by
  unfold UserGet
  rw [h]
  have hid := (usersSelect_some_mem h).2
  cases row
  simp_all

theorem onUserGet_of_select {P : Prims} {game : List Nat} {now : Nat} {accountSeed : List Nat}
    {db : Database} {q : UserGetParams} {id : String} {row : User} {seed : List Nat}
    (hauth : VerifyMessageB58 P now game q.Message q.Signature = .ok id)
    (hrow : usersSelect db id = some row)
    (hseed : hexDecodeString row.ServerSeed = .ok seed) :
    onUserGet P game now accountSeed db q
      = (.ok { Id := id, ServerSeedHash := hexEncodeToString (P.sha256 seed),
               BalanceCents := row.BalanceCents }, db) := by
  unfold onUserGet
  rw [hauth]
  simp only
  rw [UserGet_of_select hrow]
  simp only
  rw [hseed]
  simp only [(usersSelect_some_mem hrow).2]

/-! ## C3: commit and reveal -/

set_option maxRecDepth 4096 in
/-- C3, as stated, fails. On a store without accounts the caller "U" has no
stored seed.  A bet of 0 cents resolves all the same: `UserGet` creates the
account inside `onBet` with the seed generated in that call, the bet is rolled
with it and reveals it, and the store then holds the next fresh seed.  The
revealed seed was stored for no account before the bet, and the
`ServerSeedHash` that `onUserGet` publishes on the pre-bet store is the hash of
the seed that `onUserGet` itself generates, which is not the hash of the
revealed one. -/
theorem onBet_first_access_reveals_unpublished_seed :
    usersSelect exDbEmpty "U" = none
    ∧ VerifyMessageB58 exPrimsByte 100 exGame exBetZero.Message exBetZero.Signature = .ok "U"
    ∧ onBet exPrimsByte exGame 100 exAccountSeed exNewSeed exDbEmpty exBetZero
        = (.ok { Won := true, DeltaCents := 0, ServerSeed := hexEncodeToString exAccountSeed,
                 Result := 5 },
           { users := [{ Id := "U", ServerSeed := hexEncodeToString exNewSeed,
                         BalanceCents := 0 }],
             bets := [{ Id := 1, UserId := "U", AmountCents := 0, RollUnder := true,
                        Threshold := 5000, Result := 5, Won := true,
                        ServerSeed := hexEncodeToString exAccountSeed, CreatedAt := 100 }],
             deposits := [] })
    ∧ onUserGet exPrimsByte exGame 100 exNewSeed exDbEmpty ⟨exMessage, exSignature⟩
        = (.ok { Id := "U",
                 ServerSeedHash := hexEncodeToString (exPrimsByte.sha256 exNewSeed),
                 BalanceCents := 0 },
           { users := [{ Id := "U", ServerSeed := hexEncodeToString exNewSeed,
                         BalanceCents := 0 }],
             bets := [], deposits := [] })
    ∧ hexEncodeToString (exPrimsByte.sha256 exAccountSeed)
        ≠ hexEncodeToString (exPrimsByte.sha256 exNewSeed) :=
  ⟨by decide, by decide, by decide, by decide, by decide⟩

/-- C3, amended. For every store in which the caller's account exists before the
bet and every bet that `onBet` resolves: the `ServerSeed` of the `BetResult`, which is also the one
written to the bet record appended to `bets`, is the seed stored for the account
before the bet; it decodes to 32 bytes whose SHA-256 (in hex) is the
`ServerSeedHash` that `onUserGet` returns for the caller on the pre-bet store
(without changing it); `BetResult.Result` is `Roll` of these bytes with the
client seed; and the seed stored for the account after the bet is the encoding of
the freshly generated seed, a string different from the revealed one whenever the
fresh bytes differ from the revealed bytes. -/
theorem onBet_commit_reveal (P : Prims) (game : List Nat) (now : Nat)
    (accountSeed newSeed : List Nat) (db db' : Database) (p : BetParams) (r : BetResult)
    (id : String) (row : User)
    (hauth : VerifyMessageB58 P now game p.Message p.Signature = .ok id)
    (hrow : usersSelect db id = some row)
    (h : onBet P game now accountSeed newSeed db p = (.ok r, db')) :
    r.ServerSeed = row.ServerSeed
    ∧ (∃ b, db'.bets = db.bets ++ [b] ∧ b.UserId = id ∧ b.ServerSeed = row.ServerSeed
        ∧ b.Result = r.Result ∧ b.Won = r.Won)
    ∧ (∃ seed, hexDecodeString r.ServerSeed = .ok seed ∧ seed.length = 32
        ∧ r.Result = Roll P seed (goBytes p.ClientSeed)
        ∧ ∀ (now' : Nat) (accountSeed' : List Nat) (q : UserGetParams),
            VerifyMessageB58 P now' game q.Message q.Signature = .ok id →
            onUserGet P game now' accountSeed' db q
              = (.ok { Id := id, ServerSeedHash := hexEncodeToString (P.sha256 seed),
                       BalanceCents := row.BalanceCents }, db))
    ∧ (∃ row', usersSelect db' id = some row'
        ∧ row'.ServerSeed = hexEncodeToString newSeed
        ∧ ((∀ b ∈ newSeed, b < 256) → ∀ seed, hexDecodeString r.ServerSeed = .ok seed →
            newSeed ≠ seed → row'.ServerSeed ≠ r.ServerSeed)) := by
  obtain ⟨_, id', user, db1, seed, hid', hget, _, _, hseed, hlen, hres⟩ := onBet_ok h
  rw [hauth] at hid'
  cases hid'
  rw [UserGet_of_select hrow] at hget
  cases hget
  obtain ⟨hr, db2, hcas, hdb'⟩ := resolveBet_ok hres
  obtain ⟨_, hdb2⟩ := UserCompareExchange_ok hcas
  have hid := (usersSelect_some_mem hrow).2
  subst hr hdb' hdb2
  refine ⟨rfl, ⟨_, rfl, hid, rfl, rfl, rfl⟩, ⟨seed, hseed, hlen, rfl, ?_⟩, ?_⟩
  · intro now' accountSeed' q hq
    exact onUserGet_of_select hq hrow hseed
  · have hsel := usersSelect_casUpdate db row
      { Id := row.Id, ServerSeed := hexEncodeToString newSeed,
        BalanceCents := u64OfInt64 (newBalance row.BalanceCents
          (deltaCents (betWon p.RollUnder (Roll P seed (goBytes p.ClientSeed)) p.Threshold)
            p.WagerCents (underAmountCents p.RollUnder p.Threshold))) } id
    have hm : casMatches row row = true := (casMatches_iff row row).2 rfl
    rw [hrow, Option.map_some', if_pos hm] at hsel
    refine ⟨_, hsel, rfl, ?_⟩
    intro hb seed' hseed' hne heq
    simp only at heq
    rw [← heq, hexDecodeString_hexEncodeToString newSeed hb] at hseed'
    exact hne (by simpa using hseed')

/-- The winning example bet on the example store: the revealed seed is the
stored one, the new stored seed is the encoding of the fresh one. -/
theorem onBet_commit_reveal_witness :
    (VerifyMessageB58 exPrims 100 exGame exBet.Message exBet.Signature = .ok "U"
      ∧ usersSelect exDb "U" = some ⟨"U", exSeed, 5000⟩
      ∧ onBet exPrims exGame 100 [] exNewSeed exDb exBet = (.ok exBetResult, exDbAfterBet))
    ∧ exBetResult.ServerSeed = exSeed
    ∧ ∃ row', usersSelect exDbAfterBet "U" = some row'
        ∧ row'.ServerSeed = hexEncodeToString exNewSeed :=
  have h1 : VerifyMessageB58 exPrims 100 exGame exBet.Message exBet.Signature = .ok "U" := by
    decide
  have h2 : usersSelect exDb "U" = some ⟨"U", exSeed, 5000⟩ := by decide
  have h3 : onBet exPrims exGame 100 [] exNewSeed exDb exBet = (.ok exBetResult, exDbAfterBet) := by
    decide
  have h := onBet_commit_reveal exPrims exGame 100 [] exNewSeed exDb exDbAfterBet exBet
    exBetResult "U" ⟨"U", exSeed, 5000⟩ h1 h2 h3
  ⟨⟨h1, h2, h3⟩, h.1, h.2.2.2.imp fun _ hr => ⟨hr.1, hr.2.1⟩⟩

/-! ## C5: the clamped balance -/

theorem newBalance_eq_max (balance : Nat) (delta : Int) (hb : balance < 2 ^ 63)
    (hd : -(2 ^ 63) ≤ delta) (hs : (balance : Int) + delta < 2 ^ 63) :
    newBalance balance delta = max 0 ((balance : Int) + delta)
    ∧ (u64OfInt64 (newBalance balance delta) : Int) = max 0 ((balance : Int) + delta) := by
  have h1 : newBalance balance delta = max 0 ((balance : Int) + delta) := by
    unfold newBalance
    rw [int64OfU64_eq_self hb, wrapInt64_eq_self (by omega) hs]
    simp only
    split <;> omega
  refine ⟨h1, ?_⟩
  rw [h1]
  unfold u64OfInt64
  omega

/-- C5 (the code departs from the claim). On the store whose balance is
`2^63 - 1`, `onBet` accepts the winning example bet (wager 1000, delta `+980`)
and asks the ledger to store balance `0`: the `int64` sum
`int64(balance) + deltaCents` wraps to a negative value, which the clamp turns
into `0`, whereas `max 0 (balance + deltaCents)` over the integers is
`9223372036854776787`. -/
theorem onBet_balance_wraps :
    onBet exPrims exGame 100 [] exNewSeed exDbMax exBet
      = (.ok exBetResult,
         { exDbAfterBet with
            users := [{ Id := "U", ServerSeed := hexEncodeToString exNewSeed,
                        BalanceCents := 0 }] })
    ∧ exBet.WagerCents ≤ 9223372036854775807
    ∧ max 0 ((9223372036854775807 : Int) + exBetResult.DeltaCents) = 9223372036854776787 := by
  decide

/-! ## C6: rejected bets -/

theorem VerifyMessage_ne_invalidThreshold (P : Prims) (now : Nat) (game : List Nat)
    (message signature : String) :
    VerifyMessage P now game message signature ≠ .error .invalidThreshold := by
  unfold VerifyMessage
  repeat' split
  all_goals simp

theorem onBet_of_thresholdOk_false (P : Prims) (game : List Nat) (now : Nat)
    (accountSeed newSeed : List Nat) (db : Database) (p : BetParams)
    (h : thresholdOk p.RollUnder p.Threshold = false) :
    onBet P game now accountSeed newSeed db p = (.error .invalidThreshold, db) := by
  unfold onBet
  rw [if_pos h]

theorem onBet_of_wager_gt (P : Prims) (game : List Nat) (now : Nat)
    (accountSeed newSeed : List Nat) (db : Database) (p : BetParams) (id : String) (row : User)
    (hth : thresholdOk p.RollUnder p.Threshold = true)
    (hauth : VerifyMessageB58 P now game p.Message p.Signature = .ok id)
    (hrow : usersSelect db id = some row) :
    (p.WagerCents > row.BalanceCents →
      onBet P game now accountSeed newSeed db p = (.error .insufficientBalance, db))
    ∧ (p.WagerCents ≤ row.BalanceCents → p.WagerCents > MAX_BET_CENTS →
      onBet P game now accountSeed newSeed db p = (.error .maxBet, db)) := by
  unfold onBet
  rw [if_neg (by simp [hth]), hauth]
  simp only
  rw [UserGet_of_select hrow]
  simp only
  constructor
  · intro h
    rw [if_pos h]
  · intro h1 h2
    rw [if_neg (by omega), if_pos h2]


theorem VerifyMessageB58_ne_invalidThreshold (P : Prims) (now : Nat) (game : List Nat)
    (message signature : String) :
    VerifyMessageB58 P now game message signature ≠ .error .invalidThreshold := by
  unfold VerifyMessageB58
  split
  · simp
  · next e he =>
    intro h
    simp only [Res.error.injEq] at h
    subst h
    exact VerifyMessage_ne_invalidThreshold P now game message signature he
  · simp

theorem UserGet_ne_invalidThreshold (db : Database) (seedBytes : List Nat) (id : String) :
    (UserGet db seedBytes id).1 ≠ .error .invalidThreshold := by
  unfold UserGet
  split
  · simp
  · simp only
    split <;> simp

theorem UserCompareExchange_ne_invalidThreshold (db : Database) (expected desired : User) :
    (UserCompareExchange db expected desired).1 ≠ .error .invalidThreshold := by
  unfold UserCompareExchange
  split
  · simp
  · generalize usersCasUpdate db.users expected desired = out
    obtain ⟨users1, affected⟩ := out
    simp only
    split <;> simp

theorem resolveBet_ne_invalidThreshold (P : Prims) (now : Nat) (newSeed : List Nat)
    (db : Database) (p : BetParams) (user : User) (seed : List Nat) :
    (resolveBet P now newSeed db p user seed).1 ≠ .error .invalidThreshold := by
  unfold resolveBet
  simp only
  split
  · simp
  · next e db1 h =>
    intro he
    simp only [Res.error.injEq] at he
    subst he
    exact UserCompareExchange_ne_invalidThreshold _ _ _ (by rw [h])
  · simp

theorem onBet_threshold_passes (P : Prims) (game : List Nat) (now : Nat)
    (accountSeed newSeed : List Nat) (db : Database) (p : BetParams)
    (hth : thresholdOk p.RollUnder p.Threshold = true) :
    (onBet P game now accountSeed newSeed db p).1 ≠ .error .invalidThreshold := by
  unfold onBet
  rw [if_neg (by simp [hth])]
  split
  · simp
  · next e he =>
    intro h
    simp only [Res.error.injEq] at h
    subst h
    exact VerifyMessageB58_ne_invalidThreshold _ _ _ _ _ he
  · next id hid =>
    split
    · simp
    · next e db1 he =>
      intro h
      simp only [Res.error.injEq] at h
      subst h
      exact UserGet_ne_invalidThreshold _ _ _ (by rw [he])
    · next user db1 hget =>
      split
      · simp
      split
      · simp
      split
      · simp
      split
      · split
        · simp
        · exact resolveBet_ne_invalidThreshold _ _ _ _ _ _ _
      · simp


/-- C6. For every bet request: a threshold outside `[1, 9802]` (roll-under) or
outside `[197, 9899]` (roll-over) makes `onBet` return the threshold error with
the store unchanged, before anything else is looked at; a threshold inside the
range is accepted by the check, so `onBet` never returns the threshold error for
it; and for a caller authenticated as an existing account, a wager above the
account balance or above `300000_00` makes `onBet` return an error with the
whole store, hence the balance and seed of that account, unchanged. -/
theorem onBet_rejects (P : Prims) (game : List Nat) (now : Nat)
    (accountSeed newSeed : List Nat) (db : Database) (p : BetParams) :
    (thresholdOk p.RollUnder p.Threshold = true ↔
      (if p.RollUnder then 1 ≤ p.Threshold ∧ p.Threshold ≤ 9802
       else 197 ≤ p.Threshold ∧ p.Threshold ≤ 9899))
    ∧ (thresholdOk p.RollUnder p.Threshold = false →
        onBet P game now accountSeed newSeed db p = (.error .invalidThreshold, db))
    ∧ (thresholdOk p.RollUnder p.Threshold = true →
        (onBet P game now accountSeed newSeed db p).1 ≠ .error .invalidThreshold)
    ∧ (∀ (id : String) (row : User),
        VerifyMessageB58 P now game p.Message p.Signature = .ok id →
        usersSelect db id = some row →
        (p.WagerCents > row.BalanceCents ∨ p.WagerCents > 30000000) →
        ∃ e, onBet P game now accountSeed newSeed db p = (.error e, db)) := by
  refine ⟨thresholdOk_iff _ _, onBet_of_thresholdOk_false P game now accountSeed newSeed db p,
    onBet_threshold_passes P game now accountSeed newSeed db p, ?_⟩
  intro id row hauth hrow hw
  cases hth : thresholdOk p.RollUnder p.Threshold with
  | false => exact ⟨_, onBet_of_thresholdOk_false P game now accountSeed newSeed db p hth⟩
  | true =>
    obtain ⟨h1, h2⟩ := onBet_of_wager_gt P game now accountSeed newSeed db p id row hth hauth hrow
    by_cases hb : p.WagerCents > row.BalanceCents
    · exact ⟨_, h1 hb⟩
    · refine ⟨_, h2 (by omega) ?_⟩
      unfold MAX_BET_CENTS
      omega

/-- Rejected bets on the example store (balance 5000): threshold 9803 for
roll-under, threshold 196 for roll-over, and a wager of 6000. -/
theorem onBet_rejects_witness :
    onBet exPrims exGame 100 [] exNewSeed exDb { exBet with Threshold := 9803 }
      = (.error .invalidThreshold, exDb)
    ∧ onBet exPrims exGame 100 [] exNewSeed exDb { exBet with RollUnder := false, Threshold := 196 }
      = (.error .invalidThreshold, exDb)
    ∧ (onBet exPrims exGame 100 [] exNewSeed exDb exBet).1 ≠ .error .invalidThreshold
    ∧ ∃ e, onBet exPrims exGame 100 [] exNewSeed exDb { exBet with WagerCents := 6000 }
        = (.error e, exDb) :=
  ⟨(onBet_rejects exPrims exGame 100 [] exNewSeed exDb { exBet with Threshold := 9803 }).2.1
      (by decide),
   (onBet_rejects exPrims exGame 100 [] exNewSeed exDb
      { exBet with RollUnder := false, Threshold := 196 }).2.1 (by decide),
   (onBet_rejects exPrims exGame 100 [] exNewSeed exDb exBet).2.2.1 (by decide),
   (onBet_rejects exPrims exGame 100 [] exNewSeed exDb { exBet with WagerCents := 6000 }).2.2.2
      "U" ⟨"U", exSeed, 5000⟩ (by decide) (by decide) (Or.inl (by decide))⟩

/-! ## C7: what a verified message guarantees -/

theorem dropLit_some {l s r : List Char} (h : dropLit l s = some r) : s = l ++ r := by
  induction l generalizing s with
  | nil => simp [dropLit] at h; simp [h]
  | cons c l ih =>
    cases s with
    | nil => simp [dropLit] at h
    | cons d s =>
      simp only [dropLit] at h
      split at h
      · next hcd => rw [hcd, ih h]; rfl
      · simp at h

theorem dropLit_append (l r : List Char) : dropLit l (l ++ r) = some r := by
  induction l with
  | nil => rfl
  | cons c l ih => simp [dropLit, ih]

theorem takeWhile_all {p : Char → Bool} (s : List Char) : ∀ c ∈ s.takeWhile p, p c = true := by
  intro c hc
  exact (List.mem_takeWhile_imp hc)

theorem matchAuth_some {msg userS gameS fromS toS : List Char}
    (h : matchAuth msg = some (userS, gameS, fromS, toS)) :
    msg = litUser ++ userS ++ litGame ++ gameS ++ litFrom ++ fromS ++ litTo ++ toS
    ∧ (userS ≠ [] ∧ ∀ c ∈ userS, isKeyChar c = true)
    ∧ (gameS ≠ [] ∧ ∀ c ∈ gameS, isKeyChar c = true)
    ∧ (fromS ≠ [] ∧ ∀ c ∈ fromS, isNumChar c = true)
    ∧ (toS ≠ [] ∧ ∀ c ∈ toS, isNumChar c = true) := by
  unfold matchAuth at h
  split at h
  · simp at h
  next s1 h1 =>
  simp only at h
  split at h
  · simp at h
  next hu =>
  split at h
  · simp at h
  next s2 h2 =>
  split at h
  · simp at h
  next hg =>
  split at h
  · simp at h
  next s3 h3 =>
  split at h
  · simp at h
  next hf =>
  split at h
  · simp at h
  next s4 h4 =>
  split at h
  · simp at h
  next ht =>
  split at h
  · next hend =>
    simp only [Option.some.injEq, Prod.mk.injEq] at h
    obtain ⟨e1, e2, e3, e4⟩ := h
    have m1 := dropLit_some h1
    have m2 := dropLit_some h2
    have m3 := dropLit_some h3
    have m4 := dropLit_some h4
    have a1 := List.takeWhile_append_dropWhile isKeyChar s1
    have a2 := List.takeWhile_append_dropWhile isKeyChar s2
    have a3 := List.takeWhile_append_dropWhile isNumChar s3
    have a4 := List.takeWhile_append_dropWhile isNumChar s4
    rw [hend, List.append_nil] at a4
    refine ⟨?_, ⟨e1 ▸ hu, e1 ▸ takeWhile_all s1⟩, ⟨e2 ▸ hg, e2 ▸ takeWhile_all s2⟩,
      ⟨e3 ▸ hf, e3 ▸ takeWhile_all s3⟩, ⟨e4 ▸ ht, e4 ▸ takeWhile_all s4⟩⟩
    rw [m1, ← a1, m2, ← a2, m3, ← a3, m4, ← a4, e1, e2, e3, e4]
    simp only [List.append_assoc]
  · simp at h


theorem span_append_stop (p : Char → Bool) (u r : List Char) (hu : ∀ c ∈ u, p c = true)
    (hr : ∀ c ∈ r.head?, p c = false) :
    (u ++ r).takeWhile p = u ∧ (u ++ r).dropWhile p = r := by
  induction u with
  | nil =>
    cases r with
    | nil => simp
    | cons c r =>
      have := hr c (by simp)
      simp [List.takeWhile, List.dropWhile, this]
  | cons c u ih =>
    have hc := hu c (List.mem_cons_self _ _)
    have := ih (fun d hd => hu d (List.mem_cons_of_mem _ hd))
    simp [List.takeWhile, List.dropWhile, hc, this]

theorem matchAuth_of_grammar (userS gameS fromS toS : List Char)
    (hu : userS ≠ [] ∧ ∀ c ∈ userS, isKeyChar c = true)
    (hg : gameS ≠ [] ∧ ∀ c ∈ gameS, isKeyChar c = true)
    (hf : fromS ≠ [] ∧ ∀ c ∈ fromS, isNumChar c = true)
    (ht : toS ≠ [] ∧ ∀ c ∈ toS, isNumChar c = true) :
    matchAuth (litUser ++ userS ++ litGame ++ gameS ++ litFrom ++ fromS ++ litTo ++ toS)
      = some (userS, gameS, fromS, toS) := by
  have k1 : ∀ r : List Char, ∀ c ∈ (litGame ++ r).head?, isKeyChar c = false := by
    intro r c hc
    have : c = ' ' := by simpa [litGame] using hc.symm
    subst this
    decide
  have k2 : ∀ r : List Char, ∀ c ∈ (litFrom ++ r).head?, isKeyChar c = false := by
    intro r c hc
    have : c = ' ' := by simpa [litFrom] using hc.symm
    subst this
    decide
  have k3 : ∀ r : List Char, ∀ c ∈ (litTo ++ r).head?, isNumChar c = false := by
    intro r c hc
    have : c = ' ' := by simpa [litTo] using hc.symm
    subst this
    decide
  have s1 := span_append_stop isKeyChar userS
    (litGame ++ (gameS ++ (litFrom ++ (fromS ++ (litTo ++ toS))))) hu.2 (k1 _)
  have s2 := span_append_stop isKeyChar gameS (litFrom ++ (fromS ++ (litTo ++ toS))) hg.2 (k2 _)
  have s3 := span_append_stop isNumChar fromS (litTo ++ toS) hf.2 (k3 _)
  have s4 := span_append_stop isNumChar toS [] ht.2 (by simp)
  rw [List.append_nil] at s4
  unfold matchAuth
  simp only [List.append_assoc]
  rw [dropLit_append]
  simp only
  rw [s1.1, s1.2, if_neg hu.1, dropLit_append]
  simp only
  rw [s2.1, s2.2, if_neg hg.1, dropLit_append]
  simp only
  rw [s3.1, s3.2, if_neg hf.1, dropLit_append]
  simp only
  rw [s4.1, s4.2, if_neg ht.1, if_pos rfl]


theorem hexDecodeLoop_ok : ∀ (src : List Nat) (i : Nat) (dst : List Nat) (n : Nat) (out : List Nat),
    hexDecodeLoop src i dst = .ok (n, out) →
      out.length = dst.length ∧ src.length = 2 * (n - i) ∧ i ≤ n ∧ (i ≤ dst.length → n ≤ dst.length)
  | [], i, dst, n, out, h => by
    simp only [hexDecodeLoop, Res.ok.injEq, Prod.mk.injEq] at h
    obtain ⟨rfl, rfl⟩ := h
    simp
  | [p], i, dst, n, out, h => by
    simp only [hexDecodeLoop] at h
    split at h <;> simp at h
  | p :: q :: rest, i, dst, n, out, h => by
    rw [hexDecodeLoop] at h
    split at h
    · simp at h
    split at h
    · simp at h
    split at h
    · next hi =>
      obtain ⟨h1, h2, h3, h4⟩ := hexDecodeLoop_ok rest (i + 1) _ n out h
      rw [List.length_set] at h1 h4
      refine ⟨h1, ?_, by omega, fun _ => h4 (by omega)⟩
      simp only [List.length_cons]
      omega
    · simp at h

theorem hexDecodeLoop_ne_panic : ∀ (src : List Nat) (i : Nat) (dst : List Nat),
    i + src.length / 2 ≤ dst.length → hexDecodeLoop src i dst ≠ .panic
  | [], i, dst, _ => by simp [hexDecodeLoop]
  | [p], i, dst, _ => by
    simp only [hexDecodeLoop]
    split <;> simp
  | p :: q :: rest, i, dst, h => by
    rw [hexDecodeLoop]
    simp only [List.length_cons] at h
    split
    · simp
    split
    · simp
    rw [if_pos (by omega)]
    exact hexDecodeLoop_ne_panic rest (i + 1) _ (by rw [List.length_set]; omega)

theorem VerifyMessage_inv {P : Prims} {now : Nat} {game : List Nat}
    {message signature : String} {u : List Nat}
    (h : VerifyMessage P now game message signature = .ok u) :
    ∃ userS gameS fromS toS fromT toT sig,
      matchAuth message.data = some (userS, gameS, fromS, toS)
      ∧ P.base58Decode (String.mk userS) = some u ∧ u.length = 32
      ∧ P.base58Decode (String.mk gameS) = some game ∧ game.length = 32
      ∧ parseUint fromS = some fromT ∧ parseUint toS = some toT
      ∧ fromT ≤ now ∧ now ≤ toT
      ∧ hexDecode (List.replicate 64 0) (goBytes signature) = .ok (64, sig)
      ∧ P.ed25519Verify u (goBytes message) sig = true := by
  unfold VerifyMessage at h
  split at h
  · simp at h
  next userS gameS fromS toS hm =>
  split at h
  · simp at h
  next userBytes hu =>
  split at h
  · simp at h
  next hul =>
  split at h
  · simp at h
  next gameBytes hg =>
  split at h
  · simp at h
  next hgl =>
  split at h
  · simp at h
  next hge =>
  split at h
  · simp at h
  next fromT hf =>
  split at h
  · simp at h
  next toT ht =>
  split at h
  · simp at h
  next hwin =>
  split at h
  · simp at h
  · simp at h
  next n sig hsig =>
  split at h
  · simp at h
  next hn =>
  split at h
  · next hv =>
    simp only [Res.ok.injEq] at h
    subst h
    have hn' : n = 64 := by simpa using hn
    have hge' : gameBytes = game := by simpa using hge
    subst hn' hge'
    exact ⟨userS, gameS, fromS, toS, fromT, toT, sig, hm, hu, by simpa using hul, hg,
      by simpa using hgl, hf, ht, by omega, by omega, hsig, hv⟩
  · simp at h

/-- C7. Whenever `VerifyMessage game message signature` returns a user key `u`,
at any time `now`: the message is an instance of the authentication grammar
(the four literal pieces around a non-empty key-character user field, a
non-empty key-character game field and two non-empty decimal fields), the user
field base58-decodes to `u`, which has 32 bytes, the game field base58-decodes
to 32 bytes equal to the trusted game key, and the signature string is 128
hexadecimal digits decoding to 64 bytes that verify over the bytes of `message`
under the key `u`. -/
theorem VerifyMessage_ok (P : Prims) (now : Nat) (game : List Nat)
    (message signature : String) (u : List Nat)
    (h : VerifyMessage P now game message signature = .ok u) :
    ∃ userS gameS fromS toS sig,
      message.data = litUser ++ userS ++ litGame ++ gameS ++ litFrom ++ fromS ++ litTo ++ toS
      ∧ (userS ≠ [] ∧ ∀ c ∈ userS, isKeyChar c = true)
      ∧ (gameS ≠ [] ∧ ∀ c ∈ gameS, isKeyChar c = true)
      ∧ (fromS ≠ [] ∧ ∀ c ∈ fromS, isNumChar c = true)
      ∧ (toS ≠ [] ∧ ∀ c ∈ toS, isNumChar c = true)
      ∧ P.base58Decode (String.mk userS) = some u ∧ u.length = 32
      ∧ P.base58Decode (String.mk gameS) = some game ∧ game.length = 32
      ∧ (goBytes signature).length = 128
      ∧ hexDecodeString signature = .ok sig ∧ sig.length = 64
      ∧ P.ed25519Verify u (goBytes message) sig = true := by
  obtain ⟨userS, gameS, fromS, toS, fromT, toT, sig, hm, hu, hul, hg, hgl, _, _, _, _, hsig, hv⟩ :=
    VerifyMessage_inv h
  obtain ⟨g1, g2, g3, g4, g5⟩ := matchAuth_some hm
  obtain ⟨l1, l2, _, _⟩ := hexDecodeLoop_ok _ _ _ _ _ hsig
  rw [List.length_replicate] at l1
  have hlen : (goBytes signature).length = 128 := by omega
  refine ⟨userS, gameS, fromS, toS, sig, g1, g2, g3, g4, g5, hu, hul, hg, hgl, hlen, ?_, l1, hv⟩
  unfold hexDecodeString
  rw [hlen, hsig]
  simp only [Res.ok.injEq]
  rw [List.take_of_length_le (by omega)]

/-- The example message with the example signature verifies as the user key
that its user field decodes to. -/
theorem VerifyMessage_ok_witness :
    VerifyMessage exPrims 100 exGame exMessage exSignature = .ok (List.replicate 32 1)
    ∧ ∃ userS gameS fromS toS sig,
      exMessage.data
          = litUser ++ userS ++ litGame ++ gameS ++ litFrom ++ fromS ++ litTo ++ toS
      ∧ (userS ≠ [] ∧ ∀ c ∈ userS, isKeyChar c = true)
      ∧ (gameS ≠ [] ∧ ∀ c ∈ gameS, isKeyChar c = true)
      ∧ (fromS ≠ [] ∧ ∀ c ∈ fromS, isNumChar c = true)
      ∧ (toS ≠ [] ∧ ∀ c ∈ toS, isNumChar c = true)
      ∧ exPrims.base58Decode (String.mk userS) = some (List.replicate 32 1)
      ∧ (List.replicate 32 1).length = 32
      ∧ exPrims.base58Decode (String.mk gameS) = some exGame ∧ exGame.length = 32
      ∧ (goBytes exSignature).length = 128
      ∧ hexDecodeString exSignature = .ok sig ∧ sig.length = 64
      ∧ exPrims.ed25519Verify (List.replicate 32 1) (goBytes exMessage) sig = true :=
  have h : VerifyMessage exPrims 100 exGame exMessage exSignature = .ok (List.replicate 32 1) := by
    decide
  ⟨h, VerifyMessage_ok exPrims 100 exGame exMessage exSignature (List.replicate 32 1) h⟩


/-! ## C8: the validity window -/

theorem VerifyMessage_after_checks {P : Prims} {now : Nat} {game : List Nat}
    {message : String} (signature : String) {userS gameS fromS toS : List Char}
    {u : List Nat} {fromT toT : Nat}
    (hm : matchAuth message.data = some (userS, gameS, fromS, toS))
    (hu : P.base58Decode (String.mk userS) = some u) (hul : u.length = 32)
    (hg : P.base58Decode (String.mk gameS) = some game) (hgl : game.length = 32)
    (hf : parseUint fromS = some fromT) (ht : parseUint toS = some toT) :
    VerifyMessage P now game message signature =
      if now < fromT ∨ now > toT then .error .authExpiry else
      match hexDecode (List.replicate 64 0) (goBytes signature) with
      | .panic => .panic
      | .error _ => .error .authSignatureHex
      | .ok (n, sig) =>
        if n ≠ 64 then .error .authSignatureLength else
        if P.ed25519Verify u (goBytes message) sig then .ok u
        else .error .authSignatureInvalid := by
  unfold VerifyMessage
  rw [hm]
  simp only
  rw [hu]
  simp only
  rw [if_neg (by simp [hul]), hg]
  simp only
  rw [if_neg (by simp [hgl]), if_neg (by simp), hf]
  simp only
  rw [ht]

/-- C8. For every message that passes the format, key and game checks, with
parsed bounds `fromT` and `toT`: at a time `now < fromT` or `now > toT`,
`VerifyMessage` returns the expiry error whatever the signature string is; at a
time with `fromT ≤ now ≤ toT` (both bounds included) and with a signature string
that decodes to 64 bytes verifying over the message under the user key,
`VerifyMessage` returns the user key. -/
theorem VerifyMessage_time_window (P : Prims) (now : Nat) (game : List Nat)
    (message : String) (userS gameS fromS toS : List Char) (u : List Nat) (fromT toT : Nat)
    (hm : matchAuth message.data = some (userS, gameS, fromS, toS))
    (hu : P.base58Decode (String.mk userS) = some u) (hul : u.length = 32)
    (hg : P.base58Decode (String.mk gameS) = some game) (hgl : game.length = 32)
    (hf : parseUint fromS = some fromT) (ht : parseUint toS = some toT) :
    ((now < fromT ∨ now > toT) →
      ∀ signature, VerifyMessage P now game message signature = .error .authExpiry)
    ∧ (fromT ≤ now → now ≤ toT →
      ∀ signature sig, hexDecode (List.replicate 64 0) (goBytes signature) = .ok (64, sig) →
        P.ed25519Verify u (goBytes message) sig = true →
        VerifyMessage P now game message signature = .ok u) := by
  constructor
  · intro hw signature
    rw [VerifyMessage_after_checks signature hm hu hul hg hgl hf ht, if_pos hw]
  · intro h1 h2 signature sig hsig hv
    rw [VerifyMessage_after_checks signature hm hu hul hg hgl hf ht, if_neg (by omega), hsig]
    simp [hv]

/-- The window at time `T = 100`: a message valid from `T - 10` to `T - 1` is
rejected, one valid from `T - 10` to `T + 10` is accepted with a valid
signature, and so is one read at either end of its window. -/
theorem VerifyMessage_time_window_witness :
    VerifyMessage exPrims 100 exGame exMessageExpired exSignature = .error .authExpiry
    ∧ VerifyMessage exPrims 100 exGame exMessage exSignature = .ok (List.replicate 32 1)
    ∧ VerifyMessage exPrims 90 exGame exMessage exSignature = .ok (List.replicate 32 1)
    ∧ VerifyMessage exPrims 110 exGame exMessage exSignature = .ok (List.replicate 32 1) :=
  have hx := VerifyMessage_time_window exPrims 100 exGame exMessageExpired
    ['U'] ['G'] ['9', '0'] ['9', '9'] (List.replicate 32 1) 90 99
    (by decide) (by decide) (by decide) (by decide) (by decide) (by decide) (by decide)
  have hsig : hexDecode (List.replicate 64 0) (goBytes exSignature)
      = .ok (64, List.replicate 64 0) := by decide
  have hv : exPrims.ed25519Verify (List.replicate 32 1) (goBytes exMessage)
      (List.replicate 64 0) = true := by decide
  have hy := fun now => VerifyMessage_time_window exPrims now exGame exMessage
    ['U'] ['G'] ['9', '0'] ['1', '1', '0'] (List.replicate 32 1) 90 110
    (by decide) (by decide) (by decide) (by decide) (by decide) (by decide) (by decide)
  ⟨hx.1 (Or.inr (by decide)) exSignature,
   (hy 100).2 (by decide) (by decide) exSignature _ hsig hv,
   (hy 90).2 (by decide) (by decide) exSignature _ hsig hv,
   (hy 110).2 (by decide) (by decide) exSignature _ hsig hv⟩

/-! ## C9: signatures of the wrong length -/

theorem VerifyMessage_signature_outcomes (P : Prims) (now : Nat) (game : List Nat)
    (message signature : String) (userS gameS fromS toS : List Char) (u : List Nat)
    (fromT toT : Nat)
    (hm : matchAuth message.data = some (userS, gameS, fromS, toS))
    (hu : P.base58Decode (String.mk userS) = some u) (hul : u.length = 32)
    (hg : P.base58Decode (String.mk gameS) = some game) (hgl : game.length = 32)
    (hf : parseUint fromS = some fromT) (ht : parseUint toS = some toT)
    (h1 : fromT ≤ now) (h2 : now ≤ toT) :
    ((goBytes signature).length ≤ 129 →
      (∀ sig, hexDecode (List.replicate 64 0) (goBytes signature) ≠ .ok (64, sig)) →
      VerifyMessage P now game message signature = .error .authSignatureHex
        ∨ VerifyMessage P now game message signature = .error .authSignatureLength)
    ∧ (hexDecode (List.replicate 64 0) (goBytes signature) = .panic →
      VerifyMessage P now game message signature = .panic) := by
  rw [VerifyMessage_after_checks signature hm hu hul hg hgl hf ht, if_neg (by omega)]
  constructor
  · intro hlen hbad
    have hnp : hexDecode (List.replicate 64 0) (goBytes signature) ≠ .panic :=
      hexDecodeLoop_ne_panic _ 0 _ (by rw [List.length_replicate]; omega)
    cases hd : hexDecode (List.replicate 64 0) (goBytes signature) with
    | panic => exact absurd hd hnp
    | error e => exact Or.inl rfl
    | ok r =>
      obtain ⟨n, sig⟩ := r
      right
      have hn : n ≠ 64 := by
        rintro rfl
        exact hbad sig hd
      simp [hn]
  · intro hp
    rw [hp]

set_option maxRecDepth 4096 in
/-- C9 (the code departs from the claim). The example message passes the
format, key, game and time-window checks (it verifies with the 128-digit example
signature), and the signature string of 130 hexadecimal digits decodes to 65
bytes, not 64; on it `VerifyMessage` does not return an error: `hex.Decode`
writes `dst[64]` in the 64-byte buffer and the call panics. -/
theorem VerifyMessage_long_signature_panics :
    (goBytes exSignatureLong).length = 130
    ∧ hexDecodeString exSignatureLong = .ok (List.replicate 65 0)
    ∧ VerifyMessage exPrims 100 exGame exMessage exSignature = .ok (List.replicate 32 1)
    ∧ VerifyMessage exPrims 100 exGame exMessage exSignatureLong = .panic :=
  ⟨by rfl, by decide, by decide, by decide⟩


/-! ## C10: the amount embedded in an identifier -/

theorem leValue_lePutUint64 (v : Nat) (h : v < 2 ^ 64) : leValue (lePutUint64 v) = v := by
  unfold leValue lePutUint64
  simp only [List.getD_cons_zero, List.getD_cons_succ, Nat.shiftRight_eq_div_pow]
  omega

theorem leUint64_lePutUint64 (v : Nat) (h : v < 2 ^ 64) : leUint64 (lePutUint64 v) = v := by
  rw [(leUint64_eq_leValue _ ?_).1, leValue_lePutUint64 v h]
  intro x hx
  simp only [lePutUint64, List.mem_cons, List.mem_singleton, List.not_mem_nil, or_false] at hx
  omega

theorem GenerateID_amount (rnd : List Nat) (hr : rnd.length = 24) (amountCents : Nat) :
    (GenerateID rnd (CentsToRaw amountCents)).length = 32
    ∧ (GenerateID rnd (CentsToRaw amountCents)).take 24 = rnd
    ∧ leUint64 ((GenerateID rnd (CentsToRaw amountCents)).drop 24)
        = amountCents * 10000000 % 2 ^ 64
    ∧ (amountCents * 10000000 < 2 ^ 64 →
        leUint64 ((GenerateID rnd (CentsToRaw amountCents)).drop 24) = amountCents * 10000000) := by
  have hd : (GenerateID rnd (CentsToRaw amountCents)).drop 24 = lePutUint64 (CentsToRaw amountCents) := by
    unfold GenerateID
    rw [List.drop_append_of_le_length (by omega), List.drop_of_length_le (by omega)]
    rfl
  have hv : CentsToRaw amountCents < 2 ^ 64 := Nat.mod_lt _ (by norm_num)
  refine ⟨?_, ?_, ?_, ?_⟩
  · simp [GenerateID, lePutUint64, hr]
  · unfold GenerateID
    rw [List.take_append_of_le_length (by omega), List.take_of_length_le (by omega)]
  · rw [hd, leUint64_lePutUint64 _ hv]
    rfl
  · intro h
    rw [hd, leUint64_lePutUint64 _ hv]
    exact Nat.mod_eq_of_lt h

set_option maxRecDepth 4096 in
/-- C10 (the code departs from the claim). `onDeposit` accepts the amount
1844674407371 cents and records it on the deposit, while bytes `[24..32)` of the
identifier it generates decode to 448384: `CentsToRaw` multiplies in `uint64`
and `1844674407371 * 10_000_000 = 18446744073710000000` wraps around `2 ^ 64`. -/
theorem onDeposit_amount_wraps :
    onDeposit exPrims exGame 100 exRnd exDb exDeposit
      = (.ok { Id := exDepositId, Url := exDepositUrl },
         { exDb with deposits :=
            [{ Id := exDepositId, UserId := "U", Url := exDepositUrl,
               AmountCents := 1844674407371, Completed := false, Signature := none,
               CreatedAt := 100, CompletedAt := none }] })
    ∧ hexDecodeString exDepositId = .ok (GenerateID exRnd (CentsToRaw 1844674407371))
    ∧ leUint64 ((GenerateID exRnd (CentsToRaw 1844674407371)).drop 24) = 448384
    ∧ 1844674407371 * 10000000 = 18446744073710000000 :=
  ⟨by decide, by decide, by decide, by decide⟩

/-! ## C11: withdrawals -/

theorem UserCompareExchange_of_select {db : Database} {row : User}
    (hrow : usersSelect db row.Id = some row) (desired : User) (hid : row.Id = desired.Id) :
    UserCompareExchange db row desired
      = (.ok (), { db with users := (usersCasUpdate db.users row desired).1 }) := by
  have hmem := (usersSelect_some_mem hrow).1
  have hpos : 1 ≤ (usersCasUpdate db.users row desired).2 :=
    List.countP_pos_iff.2 ⟨row, hmem, (casMatches_iff row row).2 rfl⟩
  unfold UserCompareExchange
  rw [if_neg (by simpa using hid)]
  generalize usersCasUpdate db.users row desired = out at hpos
  obtain ⟨users1, affected⟩ := out
  simp only at hpos ⊢
  rw [if_neg (by omega)]

theorem usersSelect_after_cas {db : Database} {row : User}
    (hrow : usersSelect db row.Id = some row) (desired : User) (hid : row.Id = desired.Id) :
    usersSelect { db with users := (usersCasUpdate db.users row desired).1 } row.Id
      = some desired := by
  have h := usersSelect_casUpdate db row desired row.Id
  have hm : casMatches row row = true := (casMatches_iff row row).2 rfl
  rw [hrow, Option.map_some', if_pos hm] at h
  show List.find? _ _ = some desired
  rw [h]
  cases row; cases desired
  simp_all

theorem usersSelect_UserCredit (db : Database) (id : String) (amountCents : Nat) (id' : String) :
    usersSelect (UserCredit db id amountCents).2 id'
      = (usersSelect db id').map fun r =>
          if r.Id = id then { r with BalanceCents := r.BalanceCents + amountCents } else r := by
  have hu : (UserCredit db id amountCents).2.users = db.users.map fun r =>
      if r.Id = id then { r with BalanceCents := r.BalanceCents + amountCents } else r := by
    unfold UserCredit
    simp only
    split <;> rfl
  unfold usersSelect
  rw [hu, List.find?_map]
  have hfun : ((fun r : User => decide (r.Id = id'))
      ∘ fun r => if r.Id = id then { r with BalanceCents := r.BalanceCents + amountCents } else r)
      = fun r : User => decide (r.Id = id') := by
    funext r
    simp only [Function.comp]
    split <;> rfl
  rw [hfun]

theorem UserCredit_other_tables (db : Database) (id : String) (amountCents : Nat) :
    (UserCredit db id amountCents).2.withdrawals = db.withdrawals
    ∧ (UserCredit db id amountCents).2.deposits = db.deposits
    ∧ (UserCredit db id amountCents).2.bets = db.bets := by
  unfold UserCredit
  simp only
  split <;> exact ⟨rfl, rfl, rfl⟩

theorem onWithdraw_after_debit {P : Prims} {sign : List Nat → List Nat → List Nat}
    {game authorityKey : List Nat} {now : Nat} {accountSeed rnd : List Nat}
    {db : Database} {p : WithdrawParams} {u : List Nat} {row : User}
    (hauth : VerifyMessage P now game p.Message p.Signature = .ok u)
    (hrow : usersSelect db (P.base58Encode u) = some row)
    (hbal : row.BalanceCents < 2 ^ 64)
    (h0 : p.AmountCents ≠ 0) (hle : p.AmountCents ≤ row.BalanceCents) :
    onWithdraw P sign game authorityKey now accountSeed rnd db p =
      match WithdrawCreate
          { db with users := (usersCasUpdate db.users row
              { Id := row.Id, ServerSeed := row.ServerSeed,
                BalanceCents := row.BalanceCents - p.AmountCents }).1 }
          now (hexEncodeToString (GenerateID rnd (CentsToRaw p.AmountCents))) row.Id
          (IVY_URL ++ "/withdraw?game=" ++ P.base58Encode game ++ "&id="
            ++ hexEncodeToString (GenerateID rnd (CentsToRaw p.AmountCents)) ++ "&signature="
            ++ hexEncodeToString (SignWithdrawal sign game u
                (GenerateID rnd (CentsToRaw p.AmountCents)) authorityKey)
            ++ "&user=" ++ row.Id)
          p.AmountCents
          (hexEncodeToString (SignWithdrawal sign game u
            (GenerateID rnd (CentsToRaw p.AmountCents)) authorityKey)) with
      | (.ok _, db3) =>
        (.ok { Id := hexEncodeToString (GenerateID rnd (CentsToRaw p.AmountCents)),
               Url := IVY_URL ++ "/withdraw?game=" ++ P.base58Encode game ++ "&id="
                ++ hexEncodeToString (GenerateID rnd (CentsToRaw p.AmountCents)) ++ "&signature="
                ++ hexEncodeToString (SignWithdrawal sign game u
                    (GenerateID rnd (CentsToRaw p.AmountCents)) authorityKey)
                ++ "&user=" ++ row.Id }, db3)
      | (.error e, db3) => (.error e, (UserCredit db3 row.Id p.AmountCents).2)
      | (.panic, db3) => (.panic, db3) := by
  have hid := (usersSelect_some_mem hrow).2
  have hrow' : usersSelect db row.Id = some row := by rw [hid]; exact hrow
  have hsub : u64 (row.BalanceCents + 2 ^ 64 - p.AmountCents)
      = row.BalanceCents - p.AmountCents := by
    unfold u64
    omega
  unfold onWithdraw
  rw [hauth]
  simp only
  rw [UserGet_of_select hrow]
  simp only
  rw [if_neg h0, if_neg (by omega), hsub,
    UserCompareExchange_of_select hrow'
      { Id := row.Id, ServerSeed := row.ServerSeed,
        BalanceCents := row.BalanceCents - p.AmountCents } rfl]

theorem usersSelect_after_rollback {db : Database} {row : User}
    (hrow : usersSelect db row.Id = some row) (amountCents : Nat)
    (hle : amountCents ≤ row.BalanceCents) :
    usersSelect (UserCredit
        { db with users := (usersCasUpdate db.users row
            { Id := row.Id, ServerSeed := row.ServerSeed,
              BalanceCents := row.BalanceCents - amountCents }).1 }
        row.Id amountCents).2 row.Id = some row := by
  rw [usersSelect_UserCredit, usersSelect_after_cas hrow
    { Id := row.Id, ServerSeed := row.ServerSeed,
      BalanceCents := row.BalanceCents - amountCents } rfl]
  simp only [Option.map_some', if_true, Option.some.injEq]
  cases row
  simp only [User.mk.injEq, true_and]
  simp only at hle
  omega

theorem WithdrawCreate_eq (db : Database) (now : Nat) (id userId url : String)
    (amountCents : Nat) (signature : String) :
    (db.withdrawals.any (fun w => decide (w.Id = id)) = true →
      WithdrawCreate db now id userId url amountCents signature = (.error .sqlConstraint, db))
    ∧ (¬ db.withdrawals.any (fun w => decide (w.Id = id)) = true →
      WithdrawCreate db now id userId url amountCents signature
        = (.ok (), { db with withdrawals := db.withdrawals ++
            [{ Id := id, UserId := userId, Url := url, AmountCents := amountCents,
               Signature := signature, CreatedAt := now }] })) := by
  unfold WithdrawCreate
  constructor
  · intro h
    rw [if_pos h]
  · intro h
    rw [if_neg h]

/-- C11. For every withdrawal request authenticated as an account that is
stored with `(seed, balance)`, with no other request in between: (1) an amount
of 0 or above the balance makes `onWithdraw` return an error with the store
unchanged; (2) when `onWithdraw` returns an id and a URL, the amount is positive
and at most the balance, the stored row is `(seed, balance - amountCents)`, the
id is the hex of the generated identifier, the URL carries the hex of the
authorization signature over `game ++ user ++ id`, and the withdrawal record is
appended; (3) when the insert of the withdrawal record fails after the debit
(the id is already in `withdrawals`), `onWithdraw` returns that error and the
stored row is again `(seed, balance)`; (4) whatever error `onWithdraw` returns,
the stored row is `(seed, balance)`. -/
theorem onWithdraw_spec (P : Prims) (sign : List Nat → List Nat → List Nat)
    (game authorityKey : List Nat) (now : Nat) (accountSeed rnd : List Nat)
    (db : Database) (p : WithdrawParams) (u : List Nat) (row : User)
    (hauth : VerifyMessage P now game p.Message p.Signature = .ok u)
    (hrow : usersSelect db (P.base58Encode u) = some row)
    (hbal : row.BalanceCents < 2 ^ 64) :
    ((p.AmountCents = 0 ∨ p.AmountCents > row.BalanceCents) →
      ∃ e, onWithdraw P sign game authorityKey now accountSeed rnd db p = (.error e, db))
    ∧ (∀ r db', onWithdraw P sign game authorityKey now accountSeed rnd db p = (.ok r, db') →
        0 < p.AmountCents ∧ p.AmountCents ≤ row.BalanceCents
        ∧ usersSelect db' (P.base58Encode u)
            = some { row with BalanceCents := row.BalanceCents - p.AmountCents }
        ∧ r.Id = hexEncodeToString (GenerateID rnd (CentsToRaw p.AmountCents))
        ∧ r.Url = IVY_URL ++ "/withdraw?game=" ++ P.base58Encode game ++ "&id=" ++ r.Id
            ++ "&signature="
            ++ hexEncodeToString (SignWithdrawal sign game u
                (GenerateID rnd (CentsToRaw p.AmountCents)) authorityKey)
            ++ "&user=" ++ P.base58Encode u
        ∧ db'.withdrawals = db.withdrawals ++
            [{ Id := r.Id, UserId := P.base58Encode u, Url := r.Url,
               AmountCents := p.AmountCents,
               Signature := hexEncodeToString (SignWithdrawal sign game u
                  (GenerateID rnd (CentsToRaw p.AmountCents)) authorityKey),
               CreatedAt := now }])
    ∧ (0 < p.AmountCents → p.AmountCents ≤ row.BalanceCents →
        db.withdrawals.any (fun w =>
          decide (w.Id = hexEncodeToString (GenerateID rnd (CentsToRaw p.AmountCents)))) = true →
        ∃ db', onWithdraw P sign game authorityKey now accountSeed rnd db p
            = (.error .sqlConstraint, db')
          ∧ usersSelect db' (P.base58Encode u) = some row
          ∧ db'.withdrawals = db.withdrawals)
    ∧ (∀ e db', onWithdraw P sign game authorityKey now accountSeed rnd db p = (.error e, db') →
        usersSelect db' (P.base58Encode u) = some row) := by
  have hid := (usersSelect_some_mem hrow).2
  have hrow' : usersSelect db row.Id = some row := by rw [hid]; exact hrow
  have hbad : (p.AmountCents = 0 ∨ p.AmountCents > row.BalanceCents) →
      ∃ e, onWithdraw P sign game authorityKey now accountSeed rnd db p = (.error e, db) := by
    intro h
    unfold onWithdraw
    rw [hauth]
    simp only
    rw [UserGet_of_select hrow]
    simp only
    by_cases h0 : p.AmountCents = 0
    · rw [if_pos h0]
      exact ⟨_, rfl⟩
    · rw [if_neg h0, if_pos (by omega)]
      exact ⟨_, rfl⟩
  refine ⟨hbad, ?_, ?_, ?_⟩
  · intro r db' h
    by_cases hb : p.AmountCents = 0 ∨ p.AmountCents > row.BalanceCents
    · obtain ⟨e, he⟩ := hbad hb
      rw [he] at h
      simp at h
    · have h0 : p.AmountCents ≠ 0 := fun h0 => hb (Or.inl h0)
      have hle : p.AmountCents ≤ row.BalanceCents := by omega
      rw [onWithdraw_after_debit hauth hrow hbal h0 hle] at h
      by_cases hany : db.withdrawals.any (fun w =>
          decide (w.Id = hexEncodeToString (GenerateID rnd (CentsToRaw p.AmountCents)))) = true
      · rw [(WithdrawCreate_eq { db with users := (usersCasUpdate db.users row
          { Id := row.Id, ServerSeed := row.ServerSeed,
            BalanceCents := row.BalanceCents - p.AmountCents }).1 } _ _ _ _ _ _).1 hany] at h
        simp at h
      · rw [(WithdrawCreate_eq { db with users := (usersCasUpdate db.users row
          { Id := row.Id, ServerSeed := row.ServerSeed,
            BalanceCents := row.BalanceCents - p.AmountCents }).1 } _ _ _ _ _ _).2 hany] at h
        simp only [Prod.mk.injEq, Res.ok.injEq] at h
        obtain ⟨hr, hdb⟩ := h
        subst hr hdb
        refine ⟨by omega, hle, ?_, rfl, by rw [← hid], by rw [← hid]⟩
        have := usersSelect_after_cas hrow'
          { Id := row.Id, ServerSeed := row.ServerSeed,
            BalanceCents := row.BalanceCents - p.AmountCents } rfl
        rw [← hid]
        exact this
  · intro hpos hle hany
    rw [onWithdraw_after_debit hauth hrow hbal (by omega) hle,
      (WithdrawCreate_eq { db with users := (usersCasUpdate db.users row
          { Id := row.Id, ServerSeed := row.ServerSeed,
            BalanceCents := row.BalanceCents - p.AmountCents }).1 } _ _ _ _ _ _).1 hany]
    refine ⟨_, rfl, ?_, (UserCredit_other_tables _ _ _).1⟩
    have := usersSelect_after_rollback hrow' p.AmountCents hle
    rw [← hid]
    exact this
  · intro e db' h
    by_cases hb : p.AmountCents = 0 ∨ p.AmountCents > row.BalanceCents
    · obtain ⟨e', he⟩ := hbad hb
      rw [he] at h
      simp only [Prod.mk.injEq] at h
      rw [← h.2]
      exact hrow
    · have h0 : p.AmountCents ≠ 0 := fun h0 => hb (Or.inl h0)
      have hle : p.AmountCents ≤ row.BalanceCents := by omega
      rw [onWithdraw_after_debit hauth hrow hbal h0 hle] at h
      by_cases hany : db.withdrawals.any (fun w =>
          decide (w.Id = hexEncodeToString (GenerateID rnd (CentsToRaw p.AmountCents)))) = true
      · rw [(WithdrawCreate_eq { db with users := (usersCasUpdate db.users row
          { Id := row.Id, ServerSeed := row.ServerSeed,
            BalanceCents := row.BalanceCents - p.AmountCents }).1 } _ _ _ _ _ _).1 hany] at h
        simp only [Prod.mk.injEq] at h
        rw [← h.2]
        have := usersSelect_after_rollback hrow' p.AmountCents hle
        rw [← hid]
        exact this
      · rw [(WithdrawCreate_eq { db with users := (usersCasUpdate db.users row
          { Id := row.Id, ServerSeed := row.ServerSeed,
            BalanceCents := row.BalanceCents - p.AmountCents }).1 } _ _ _ _ _ _).2 hany] at h
        simp at h

set_option maxRecDepth 4096 in
/-- Withdrawals on the example store (balance 5000): 5001 is refused, 2000
leaves 3000, and 2000 with the identifier already taken is rolled back to
5000. -/
theorem onWithdraw_spec_witness :
    (VerifyMessage exPrims 100 exGame exWithdraw.Message exWithdraw.Signature
        = .ok (List.replicate 32 1)
      ∧ usersSelect exDb (exPrims.base58Encode (List.replicate 32 1)) = some exRow
      ∧ exRow.BalanceCents < 2 ^ 64)
    ∧ (∃ e, onWithdraw exPrims exSign exGame exKey 100 [] exRnd exDb
          { exWithdraw with AmountCents := 5001 } = (.error e, exDb))
    ∧ (∃ r db', onWithdraw exPrims exSign exGame exKey 100 [] exRnd exDb exWithdraw = (.ok r, db')
        ∧ r.Id = exWithdrawId
        ∧ usersSelect db' "U" = some { exRow with BalanceCents := 3000 })
    ∧ (∃ db', onWithdraw exPrims exSign exGame exKey 100 [] exRnd exDbTaken exWithdraw
          = (.error .sqlConstraint, db')
        ∧ usersSelect db' "U" = some exRow) := by
  have ha : VerifyMessage exPrims 100 exGame exWithdraw.Message exWithdraw.Signature
      = .ok (List.replicate 32 1) := by decide
  have hr : usersSelect exDb (exPrims.base58Encode (List.replicate 32 1)) = some exRow := by
    decide
  have hr' : usersSelect exDbTaken (exPrims.base58Encode (List.replicate 32 1)) = some exRow := by
    decide
  have hb : exRow.BalanceCents < 2 ^ 64 := by decide
  have w1 := onWithdraw_spec exPrims exSign exGame exKey 100 [] exRnd exDb
    { exWithdraw with AmountCents := 5001 } (List.replicate 32 1) exRow ha hr hb
  have w2 := onWithdraw_spec exPrims exSign exGame exKey 100 [] exRnd exDb exWithdraw
    (List.replicate 32 1) exRow ha hr hb
  have w3 := onWithdraw_spec exPrims exSign exGame exKey 100 [] exRnd exDbTaken exWithdraw
    (List.replicate 32 1) exRow ha hr' hb
  refine ⟨⟨ha, hr, hb⟩, w1.1 (Or.inr (by decide)), ?_, ?_⟩
  · have hex : ∃ r db',
        onWithdraw exPrims exSign exGame exKey 100 [] exRnd exDb exWithdraw = (.ok r, db') :=
      ⟨_, _, rfl⟩
    obtain ⟨r, db', h⟩ := hex
    obtain ⟨_, _, hsel, hid, _⟩ := w2.2.1 r db' h
    have hid' : hexEncodeToString (GenerateID exRnd (CentsToRaw exWithdraw.AmountCents))
        = exWithdrawId := by decide
    exact ⟨r, db', h, hid.trans hid', hsel⟩
  · obtain ⟨db', h1, h2, _⟩ := w3.2.2.1 (by decide) (by decide) (by decide)
    exact ⟨db', h1, h2⟩

/-! ## C12: completing a deposit -/

theorem DepositGet_ok {db : Database} {id : String} {d : Deposit}
    (h : DepositGet db id = .ok d) :
    db.deposits.find? (fun x => decide (x.Id = id)) = some d ∧ d ∈ db.deposits ∧ d.Id = id := by
  unfold DepositGet at h
  split at h
  · next d' hd =>
    simp only [Res.ok.injEq] at h
    subst h
    exact ⟨hd, List.mem_of_find?_eq_some hd, by simpa using List.find?_some hd⟩
  · simp at h

theorem DepositGet_map {db : Database} (f : Deposit → Deposit) (hf : ∀ d, (f d).Id = d.Id)
    (id : String) :
    DepositGet { db with deposits := db.deposits.map f } id
      = match DepositGet db id with
        | .ok d => .ok (f d)
        | .error e => .error e
        | .panic => .panic := by
  unfold DepositGet
  simp only
  rw [List.find?_map]
  have hfun : ((fun x : Deposit => decide (x.Id = id)) ∘ f)
      = fun x : Deposit => decide (x.Id = id) := by
    funext x
    simp only [Function.comp, hf]
  rw [hfun]
  cases db.deposits.find? (fun x => decide (x.Id = id)) <;> rfl

theorem DepositComplete_pending {db : Database} {d : Deposit}
    (hget : DepositGet db d.Id = .ok d) (hpend : d.Completed = false)
    (signature : String) (timestamp : Nat) :
    (DepositComplete db d.Id signature timestamp).1 = .ok ()
    ∧ (DepositComplete db d.Id signature timestamp).2.users = db.users
    ∧ DepositGet (DepositComplete db d.Id signature timestamp).2 d.Id
        = .ok { d with Completed := true, Signature := some signature,
                       CompletedAt := some timestamp } := by
  have hmem := (DepositGet_ok hget).2.1
  have hpos : 1 ≤ db.deposits.countP (fun x => decide (x.Id = d.Id ∧ x.Completed = false)) :=
    List.countP_pos_iff.2 ⟨d, hmem, by simp [hpend]⟩
  have hdb : DepositComplete db d.Id signature timestamp
      = (.ok (), { db with deposits := db.deposits.map fun x =>
          if x.Id = d.Id ∧ x.Completed = false then
            { x with Completed := true, Signature := some signature,
                     CompletedAt := some timestamp }
          else x }) := by
    unfold DepositComplete
    simp only
    rw [if_neg (by omega)]
  rw [hdb]
  refine ⟨rfl, rfl, ?_⟩
  rw [DepositGet_map _ (by intro x; split <;> rfl), hget]
  simp [hpend]

theorem DepositComplete_completed {db : Database} {id : String} {d : Deposit}
    (hpk : (db.deposits.map Deposit.Id).Nodup)
    (hget : DepositGet db id = .ok d) (hdone : d.Completed = true)
    (signature : String) (timestamp : Nat) :
    DepositComplete db id signature timestamp = (.error .depositNotPending, db) := by
  obtain ⟨_, hmem, hid⟩ := DepositGet_ok hget
  have hnone : ∀ x ∈ db.deposits, ¬(x.Id = id ∧ x.Completed = false) := by
    rintro x hx ⟨hxid, hxc⟩
    have : x = d := List.inj_on_of_nodup_map hpk hx hmem (by rw [hxid, hid])
    subst this
    rw [hdone] at hxc
    exact absurd hxc (by decide)
  have hcount : db.deposits.countP (fun x => decide (x.Id = id ∧ x.Completed = false)) = 0 := by
    rw [List.countP_eq_zero]
    intro x hx
    simpa using hnone x hx
  have hmap : (db.deposits.map fun x =>
      if x.Id = id ∧ x.Completed = false then
        { x with Completed := true, Signature := some signature, CompletedAt := some timestamp }
      else x) = db.deposits := by
    conv_rhs => rw [← List.map_id db.deposits]
    apply List.map_congr_left
    intro x hx
    rw [if_neg (hnone x hx)]
    rfl
  unfold DepositComplete
  simp only
  rw [hcount, hmap]
  rfl

theorem UserCredit_of_select {db : Database} {id : String} {acct : User}
    (h : usersSelect db id = some acct) (amountCents : Nat) :
    (UserCredit db id amountCents).1 = .ok ()
    ∧ usersSelect (UserCredit db id amountCents).2 id
        = some { acct with BalanceCents := acct.BalanceCents + amountCents } := by
  obtain ⟨hmem, hid⟩ := usersSelect_some_mem h
  constructor
  · have hpos : 1 ≤ db.users.countP (fun r => decide (r.Id = id)) :=
      List.countP_pos_iff.2 ⟨acct, hmem, by simp [hid]⟩
    unfold UserCredit
    simp only
    rw [if_neg (by omega)]
  · rw [usersSelect_UserCredit, h]
    simp [hid]

theorem DepositGet_congr {db db' : Database} (h : db'.deposits = db.deposits) (id : String) :
    DepositGet db' id = DepositGet db id := by
  unfold DepositGet
  rw [h]

theorem usersSelect_congr {db db' : Database} (h : db'.users = db.users) (id : String) :
    usersSelect db' id = usersSelect db id := by
  unfold usersSelect
  rw [h]

theorem onDepositStatus_completed {P : Prims}
    {oracle : List Nat → List Nat → Res (Option DepositInfo)} {game : List Nat} {now : Nat}
    {db : Database} {p : DepositStatusParams} {userId : String} {d : Deposit}
    (hauth : VerifyMessageB58 P now game p.Message p.Signature = .ok userId)
    (hget : DepositGet db p.DepositID = .ok d) (hown : d.UserId = userId)
    (hdone : d.Completed = true) :
    onDepositStatus P oracle game now db p = (.ok d, db) := by
  unfold onDepositStatus
  rw [hauth]
  simp only
  rw [hget]
  simp only
  rw [if_neg (by simp [hown]), if_pos hdone]

theorem onDepositStatus_settles {P : Prims}
    {oracle : List Nat → List Nat → Res (Option DepositInfo)} {game : List Nat} {now : Nat}
    {db : Database} {p : DepositStatusParams} {userId : String} {dep : Deposit} {acct : User}
    {idBytes : List Nat} {info : DepositInfo}
    (hauth : VerifyMessageB58 P now game p.Message p.Signature = .ok userId)
    (hp : p.DepositID = dep.Id)
    (hdep : DepositGet db dep.Id = .ok dep)
    (hpend : dep.Completed = false) (hown : dep.UserId = userId)
    (hacct : usersSelect db userId = some acct)
    (hhex : DecodeHex32 dep.Id = .ok idBytes)
    (horacle : oracle game idBytes = .ok (some info)) :
    onDepositStatus P oracle game now db p
      = (.ok { dep with Completed := true, Signature := some info.Signature,
                        CompletedAt := some info.Timestamp },
         (UserCredit (DepositComplete db dep.Id info.Signature info.Timestamp).2
            dep.UserId dep.AmountCents).2) := by
  obtain ⟨hc1, hc2, hc3⟩ := DepositComplete_pending hdep hpend info.Signature info.Timestamp
  have hc : DepositComplete db dep.Id info.Signature info.Timestamp
      = (.ok (), (DepositComplete db dep.Id info.Signature info.Timestamp).2) :=
    Prod.ext hc1 rfl
  have hacct1 : usersSelect (DepositComplete db dep.Id info.Signature info.Timestamp).2 dep.UserId
      = some acct := by
    rw [usersSelect_congr hc2, hown]
    exact hacct
  obtain ⟨hu1, _⟩ := UserCredit_of_select hacct1 dep.AmountCents
  have hu : UserCredit (DepositComplete db dep.Id info.Signature info.Timestamp).2
        dep.UserId dep.AmountCents
      = (.ok (), (UserCredit (DepositComplete db dep.Id info.Signature info.Timestamp).2
          dep.UserId dep.AmountCents).2) :=
    Prod.ext hu1 rfl
  have hg : DepositGet (UserCredit (DepositComplete db dep.Id info.Signature info.Timestamp).2
        dep.UserId dep.AmountCents).2 dep.Id
      = .ok { dep with Completed := true, Signature := some info.Signature,
                       CompletedAt := some info.Timestamp } := by
    rw [DepositGet_congr (UserCredit_other_tables _ _ _).2.1]
    exact hc3
  unfold onDepositStatus
  rw [hauth]
  simp only
  rw [hp, hdep]
  simp only
  rw [if_neg (by simp [hown]), if_neg (by simp [hpend]), hhex]
  simp only
  rw [horacle]
  simp only
  rw [hc]
  simp only
  rw [hu]
  simp only
  rw [hg]

/-- C12. For every pending deposit owned by the caller, whose account exists
and whose decoded id the oracle reports as settled, with the credited balance
and the reported timestamp below `2 ^ 63` (integers that the store holds
exactly and that `database/sql` passes to the statements): the first
`onDepositStatus` returns the deposit as completed (with the oracle's signature
and timestamp), the account balance becomes the initial balance plus the
deposit's `amountCents` and the stored deposit is completed; a second
`onDepositStatus` on the resulting store, at any time and whatever the oracle
then says, returns the same completed deposit and leaves the store unchanged, so
the account is credited exactly once.  And in a `deposits` table with unique
ids, `DepositComplete` on a deposit that is already completed returns an error
and leaves the store unchanged. -/
theorem onDepositStatus_idempotent (P : Prims)
    (oracle1 oracle2 : List Nat → List Nat → Res (Option DepositInfo)) (game : List Nat)
    (now1 now2 : Nat) (db : Database) (p1 p2 : DepositStatusParams) (userId : String)
    (dep : Deposit) (acct : User) (idBytes : List Nat) (info : DepositInfo)
    (hauth1 : VerifyMessageB58 P now1 game p1.Message p1.Signature = .ok userId)
    (hauth2 : VerifyMessageB58 P now2 game p2.Message p2.Signature = .ok userId)
    (hp1 : p1.DepositID = dep.Id) (hp2 : p2.DepositID = dep.Id)
    (hdep : DepositGet db dep.Id = .ok dep)
    (hpend : dep.Completed = false) (hown : dep.UserId = userId)
    (hacct : usersSelect db userId = some acct)
    (hhex : DecodeHex32 dep.Id = .ok idBytes)
    (horacle : oracle1 game idBytes = .ok (some info))
    (_hsum : acct.BalanceCents + dep.AmountCents < 2 ^ 63)
    (_htime : info.Timestamp < 2 ^ 63) :
    (onDepositStatus P oracle1 game now1 db p1).1
        = .ok { dep with Completed := true, Signature := some info.Signature,
                         CompletedAt := some info.Timestamp }
    ∧ usersSelect (onDepositStatus P oracle1 game now1 db p1).2 userId
        = some { acct with BalanceCents := acct.BalanceCents + dep.AmountCents }
    ∧ DepositGet (onDepositStatus P oracle1 game now1 db p1).2 dep.Id
        = .ok { dep with Completed := true, Signature := some info.Signature,
                         CompletedAt := some info.Timestamp }
    ∧ onDepositStatus P oracle2 game now2 (onDepositStatus P oracle1 game now1 db p1).2 p2
        = (.ok { dep with Completed := true, Signature := some info.Signature,
                          CompletedAt := some info.Timestamp },
           (onDepositStatus P oracle1 game now1 db p1).2)
    ∧ (∀ (db0 : Database) (id signature : String) (timestamp : Nat) (d : Deposit),
        (db0.deposits.map Deposit.Id).Nodup → DepositGet db0 id = .ok d → d.Completed = true →
        timestamp < 2 ^ 63 →
        DepositComplete db0 id signature timestamp = (.error .depositNotPending, db0)) := by
  obtain ⟨_, hc2, hc3⟩ := DepositComplete_pending hdep hpend info.Signature info.Timestamp
  have hacct1 : usersSelect (DepositComplete db dep.Id info.Signature info.Timestamp).2 dep.UserId
      = some acct := by
    rw [usersSelect_congr hc2, hown]
    exact hacct
  have hsel := (UserCredit_of_select hacct1 dep.AmountCents).2
  have hg : DepositGet (UserCredit (DepositComplete db dep.Id info.Signature info.Timestamp).2
        dep.UserId dep.AmountCents).2 dep.Id
      = .ok { dep with Completed := true, Signature := some info.Signature,
                       CompletedAt := some info.Timestamp } := by
    rw [DepositGet_congr (UserCredit_other_tables _ _ _).2.1]
    exact hc3
  rw [onDepositStatus_settles hauth1 hp1 hdep hpend hown hacct hhex horacle]
  refine ⟨rfl, ?_, hg, ?_, ?_⟩
  · rw [← hown]
    exact hsel
  · exact onDepositStatus_completed hauth2 (by rw [hp2]; exact hg) hown rfl
  · intro db0 id signature timestamp d hpk hget hdone _
    exact DepositComplete_completed hpk hget hdone signature timestamp

set_option maxRecDepth 4096 in
/-- The pending example deposit of 700 cents: after two status requests the
balance is 5700, the second request changing nothing, and completing the
completed deposit once more fails without changing the store. -/
theorem onDepositStatus_idempotent_witness :
    (VerifyMessageB58 exPrims 100 exGame exStatus.Message exStatus.Signature = .ok "U"
      ∧ DepositGet exDbPending exPending.Id = .ok exPending
      ∧ usersSelect exDbPending "U" = some exRow
      ∧ exOracle exGame (GenerateID exRnd (CentsToRaw 700))
          = .ok (some { Signature := "ab", Timestamp := 105 })
      ∧ exRow.BalanceCents + exPending.AmountCents < 2 ^ 63 ∧ (105 : Nat) < 2 ^ 63)
    ∧ usersSelect (onDepositStatus exPrims exOracle exGame 100 exDbPending exStatus).2 "U"
        = some { exRow with BalanceCents := 5700 }
    ∧ onDepositStatus exPrims exOracle exGame 101
          (onDepositStatus exPrims exOracle exGame 100 exDbPending exStatus).2 exStatus
        = (.ok { exPending with Completed := true, Signature := some "ab",
                                CompletedAt := some 105 },
           (onDepositStatus exPrims exOracle exGame 100 exDbPending exStatus).2)
    ∧ DepositComplete (onDepositStatus exPrims exOracle exGame 100 exDbPending exStatus).2
          exPending.Id "cd" 106
        = (.error .depositNotPending,
           (onDepositStatus exPrims exOracle exGame 100 exDbPending exStatus).2) := by
  have h1 : VerifyMessageB58 exPrims 100 exGame exStatus.Message exStatus.Signature = .ok "U" := by
    decide
  have h1' : VerifyMessageB58 exPrims 101 exGame exStatus.Message exStatus.Signature = .ok "U" := by
    decide
  have h2 : DepositGet exDbPending exPending.Id = .ok exPending := by decide
  have h3 : usersSelect exDbPending "U" = some exRow := by decide
  have h4 : DecodeHex32 exPending.Id = .ok (GenerateID exRnd (CentsToRaw 700)) := by decide
  have h5 : exOracle exGame (GenerateID exRnd (CentsToRaw 700))
      = .ok (some { Signature := "ab", Timestamp := 105 }) := rfl
  have h6 : exRow.BalanceCents + exPending.AmountCents < 2 ^ 63 := by decide
  have h7 : (105 : Nat) < 2 ^ 63 := by decide
  have h := onDepositStatus_idempotent exPrims exOracle exOracle exGame 100 101 exDbPending
    exStatus exStatus "U" exPending exRow _ _ h1 h1' rfl rfl h2 rfl rfl h3 h4 h5 h6 h7
  have hpk : ((onDepositStatus exPrims exOracle exGame 100 exDbPending exStatus).2.deposits.map
      Deposit.Id).Nodup := by decide
  exact ⟨⟨h1, h2, h3, h5, h6, h7⟩, h.2.1, h.2.2.2.1,
    h.2.2.2.2 _ _ "cd" 106 _ hpk h.2.2.1 rfl (by decide)⟩

/-! ## C13: two compare-and-swaps from one snapshot -/

/-- C13, as stated, fails. On the example store the row of "U" matches the
snapshot `exRow`; the call `cas(exRow, exRow)`, whose desired state is the
expected one, succeeds and leaves the row matching, so the following
`cas(exRow, d2)` succeeds as well: both calls succeed.  And a desired snapshot
with another id makes its call fail with the mismatching-ids error, not the
conflict error. -/
theorem UserCompareExchange_both_succeed :
    usersSelect exDb exRow.Id = some exRow
    ∧ (UserCompareExchange exDb exRow exRow).1 = .ok ()
    ∧ (UserCompareExchange (UserCompareExchange exDb exRow exRow).2 exRow
        { Id := "U", ServerSeed := "aa", BalanceCents := 4000 }).1 = .ok ()
    ∧ (UserCompareExchange exDb exRow { Id := "V", ServerSeed := "aa", BalanceCents := 4000 }).1
        = .error .casMismatchingIds :=
  ⟨by decide, by decide, by decide, by decide⟩

theorem UserCompareExchange_then_conflict (db : Database) (e d1 d2 : User)
    (hpk : (db.users.map User.Id).Nodup) (hrow : usersSelect db e.Id = some e)
    (h1 : d1.Id = e.Id) (h2 : d2.Id = e.Id)
    (hne : ¬(d1.ServerSeed = e.ServerSeed ∧ d1.BalanceCents = e.BalanceCents)) :
    (UserCompareExchange db e d1).1 = .ok ()
    ∧ UserCompareExchange (UserCompareExchange db e d1).2 e d2
        = (.error .casNoMatchingRow, (UserCompareExchange db e d1).2)
    ∧ usersSelect (UserCompareExchange db e d1).2 e.Id = some d1 := by
  have hmem : e ∈ db.users := (usersSelect_eq_some_iff hpk e).1 hrow
  rw [UserCompareExchange_of_mem db e d1 hpk h1.symm hmem]
  refine ⟨rfl, ?_, ?_⟩
  · apply UserCompareExchange_of_not_mem _ e d2 h2.symm
    simp only [List.mem_map, not_exists, not_and]
    intro r _ hre
    split at hre
    · apply hne
      rw [hre]
      exact ⟨rfl, rfl⟩
    · next hid => exact hid (by rw [hre])
  · show List.find? _ _ = some d1
    rw [usersSelect_map_replace db e d1 h1.symm, hrow]
    simp

/-- C13, amended. In a `users` table with unique ids whose row for `e.Id` is
exactly `e`, for two calls `cas(e, d1)` and `cas(e, d2)` whose desired snapshots
have the id of `e` and each differ from `e` in seed or balance, all three
balances being below `2 ^ 63` (integers that the store holds and that
`database/sql` passes to the statement), applied one after the other in either
order: the first call succeeds, the second returns the conflict error and
leaves the store as the first left it, and the stored row is the desired
snapshot of the call that succeeded. -/
theorem UserCompareExchange_one_winner (db : Database) (e d1 d2 : User)
    (hpk : (db.users.map User.Id).Nodup) (hrow : usersSelect db e.Id = some e)
    (h1 : d1.Id = e.Id) (h2 : d2.Id = e.Id)
    (hne1 : ¬(d1.ServerSeed = e.ServerSeed ∧ d1.BalanceCents = e.BalanceCents))
    (hne2 : ¬(d2.ServerSeed = e.ServerSeed ∧ d2.BalanceCents = e.BalanceCents))
    (_he : e.BalanceCents < 2 ^ 63) (_hd1 : d1.BalanceCents < 2 ^ 63)
    (_hd2 : d2.BalanceCents < 2 ^ 63) :
    ((UserCompareExchange db e d1).1 = .ok ()
      ∧ UserCompareExchange (UserCompareExchange db e d1).2 e d2
          = (.error .casNoMatchingRow, (UserCompareExchange db e d1).2)
      ∧ usersSelect (UserCompareExchange db e d1).2 e.Id = some d1)
    ∧ ((UserCompareExchange db e d2).1 = .ok ()
      ∧ UserCompareExchange (UserCompareExchange db e d2).2 e d1
          = (.error .casNoMatchingRow, (UserCompareExchange db e d2).2)
      ∧ usersSelect (UserCompareExchange db e d2).2 e.Id = some d2) :=
  ⟨UserCompareExchange_then_conflict db e d1 d2 hpk hrow h1 h2 hne1,
   UserCompareExchange_then_conflict db e d2 d1 hpk hrow h2 h1 hne2⟩

/-- Two compare-and-swaps from the same snapshot on the example store: the first
wins, the second gets the conflict error. -/
theorem UserCompareExchange_one_winner_witness :
    ((exDb.users.map User.Id).Nodup ∧ usersSelect exDb exRow.Id = some exRow
      ∧ exRow.BalanceCents < 2 ^ 63 ∧ (4000 : Nat) < 2 ^ 63 ∧ (3000 : Nat) < 2 ^ 63)
    ∧ (UserCompareExchange exDb exRow ⟨"U", "aa", 4000⟩).1 = .ok ()
    ∧ UserCompareExchange (UserCompareExchange exDb exRow ⟨"U", "aa", 4000⟩).2 exRow
          ⟨"U", exSeed, 3000⟩
        = (.error .casNoMatchingRow, (UserCompareExchange exDb exRow ⟨"U", "aa", 4000⟩).2)
    ∧ usersSelect (UserCompareExchange exDb exRow ⟨"U", "aa", 4000⟩).2 "U"
        = some ⟨"U", "aa", 4000⟩ :=
  ⟨⟨by decide, by decide, by decide, by decide, by decide⟩,
   (UserCompareExchange_one_winner exDb exRow ⟨"U", "aa", 4000⟩ ⟨"U", exSeed, 3000⟩
      (by decide) (by decide) rfl rfl (by decide) (by decide) (by decide) (by decide)
      (by decide)).1⟩

/-! ## C14: `UserGet` -/

theorem usersInsert_of_select_none {db : Database} {row : User}
    (h : usersSelect db row.Id = none) :
    usersInsert db row = some { db with users := db.users ++ [row] } := by
  unfold usersInsert
  unfold usersSelect at h
  rw [List.find?_eq_none] at h
  rw [if_neg]
  simp only [List.any_eq_true, not_exists, not_and]
  intro r hr
  exact h r hr

theorem usersInsert_of_select_some {db : Database} {row other : User}
    (h : usersSelect db row.Id = some other) : usersInsert db row = none := by
  unfold usersInsert
  obtain ⟨hm, hid⟩ := usersSelect_some_mem h
  rw [if_pos]
  simp only [List.any_eq_true]
  exact ⟨other, hm, by simpa using hid⟩

/-- C14, as stated, fails. On a store without accounts, when another first
access inserts the row of "U" between the lookup and the insert of `UserGet`,
`UserGet` returns the primary-key error of its insert, not the stored
account. -/
theorem UserGet_race_returns_error :
    usersSelect exDbEmpty "U" = none
    ∧ usersSelect (exOtherAccess exDbEmpty) "U" = some ⟨"U", exSeed, 0⟩
    ∧ UserGetInterleaved exDbEmpty exOtherAccess exNewSeed "U"
        = (.error .sqlConstraint, exOtherAccess exDbEmpty) :=
  ⟨by decide, by decide, by decide⟩

/-- C14, amended. `UserGet` is the interleaved form with nothing in between.
If a row for `id` exists, `UserGet` returns it and changes nothing; if none
exists, it appends and returns the row `(id, hex of the fresh seed, 0)`; and if a
row for `id` has been inserted by another first access between the lookup and
the insert, `UserGet` returns the primary-key error of its insert and leaves the
store as the other access left it (no second row, no overwritten row). -/
theorem UserGet_spec (db : Database) (between : Database → Database) (seedBytes : List Nat)
    (id : String) :
    UserGetInterleaved db (fun d => d) seedBytes id = UserGet db seedBytes id
    ∧ (∀ row, usersSelect db id = some row →
        UserGet db seedBytes id = (.ok row, db)
        ∧ UserGetInterleaved db between seedBytes id = (.ok row, db))
    ∧ (usersSelect db id = none →
        UserGet db seedBytes id
          = (.ok { Id := id, ServerSeed := hexEncodeToString seedBytes, BalanceCents := 0 },
             { db with users := db.users
                ++ [{ Id := id, ServerSeed := hexEncodeToString seedBytes, BalanceCents := 0 }] }))
    ∧ (usersSelect db id = none →
        ∀ other, usersSelect (between db) id = some other →
          UserGetInterleaved db between seedBytes id = (.error .sqlConstraint, between db)) := by
  refine ⟨rfl, ?_, ?_, ?_⟩
  · intro row hrow
    refine ⟨UserGet_of_select hrow seedBytes, ?_⟩
    unfold UserGetInterleaved
    rw [hrow]
    have hid := (usersSelect_some_mem hrow).2
    cases row
    simp_all
  · intro hnone
    unfold UserGet
    rw [hnone]
    simp only
    rw [@usersInsert_of_select_none db ⟨id, hexEncodeToString seedBytes, 0⟩ hnone]
  · intro hnone other hother
    unfold UserGetInterleaved
    rw [hnone]
    simp only
    rw [@usersInsert_of_select_some (between db) ⟨id, hexEncodeToString seedBytes, 0⟩ other hother]

/-- The three cases of `UserGet` on the example stores. -/
theorem UserGet_spec_witness :
    UserGet exDb exNewSeed "U" = (.ok exRow, exDb)
    ∧ UserGet exDbEmpty exNewSeed "U"
        = (.ok ⟨"U", hexEncodeToString exNewSeed, 0⟩,
           { exDbEmpty with users := [⟨"U", hexEncodeToString exNewSeed, 0⟩] })
    ∧ UserGetInterleaved exDbEmpty exOtherAccess exNewSeed "U"
        = (.error .sqlConstraint, exOtherAccess exDbEmpty) :=
  ⟨((UserGet_spec exDb exOtherAccess exNewSeed "U").2.1 exRow (by decide)).1,
   (UserGet_spec exDbEmpty exOtherAccess exNewSeed "U").2.2.1 (by decide),
   (UserGet_spec exDbEmpty exOtherAccess exNewSeed "U").2.2.2 (by decide) ⟨"U", exSeed, 0⟩
     (by decide)⟩

/-! ## C15: winning outcomes and the payout basis -/

theorem countP_range_lt (t n : Nat) :
    (List.range n).countP (fun o => decide (o < t)) = min t n := by
  induction n with
  | zero => simp
  | succ n ih =>
    rw [List.range_succ, List.countP_append, ih]
    by_cases h : n < t
    · simp [List.countP_cons, h]
      omega
    · simp [List.countP_cons, h]
      omega

theorem countP_range_gt (t n : Nat) :
    (List.range n).countP (fun o => decide (o > t)) = n - (t + 1) := by
  induction n with
  | zero => simp
  | succ n ih =>
    rw [List.range_succ, List.countP_append, ih]
    by_cases h : n > t
    · simp [List.countP_cons, h]
      omega
    · simp [List.countP_cons, h]
      omega

theorem winningOutcomes_eq (rollUnder : Bool) (t : Nat) :
    winningOutcomes rollUnder t = if rollUnder then min t 10000 else 10000 - (t + 1) := by
  unfold winningOutcomes betWon
  cases rollUnder
  · simpa using countP_range_gt t 10000
  · simpa using countP_range_lt t 10000

theorem winningOutcomes_le_basis (rollUnder : Bool) (t : Nat)
    (ht : thresholdOk rollUnder t = true) :
    winningOutcomes rollUnder t ≤ underAmountCents rollUnder t := by
  rw [winningOutcomes_eq, underAmountCents_eq rollUnder t ht]
  cases rollUnder
  · simp only [Bool.false_eq_true, if_false]
    omega
  · simp only [if_true]
    omega

theorem payoutCents_mul_basis_le (wager under : Nat) (hw : wager ≤ MAX_BET_CENTS)
    (hu : under ≤ 10000) : payoutCents wager under * under ≤ wager * 9900 := by
  rw [payoutCents_eq wager under hw hu]
  have h := Nat.div_mul_le_self (wager * 10000 * (100 - 1)) (under * 100)
  rw [← Nat.mul_assoc] at h
  generalize wager * 10000 * (100 - 1) / (under * 100) * under = x at h ⊢
  omega

theorem payoutCents_ge_wager (wager : Nat) (rollUnder : Bool) (t : Nat)
    (hw : wager ≤ MAX_BET_CENTS) (ht : thresholdOk rollUnder t = true) :
    wager ≤ payoutCents wager (underAmountCents rollUnder t) := by
  have hu := underAmountCents_le rollUnder t ht
  have hb : underAmountCents rollUnder t ≤ 9900 := by
    rw [underAmountCents_eq rollUnder t ht]
    rw [thresholdOk_iff] at ht
    cases rollUnder <;> simp at ht ⊢ <;> omega
  rw [payoutCents_eq wager _ hw hu.2, Nat.le_div_iff_mul_le (by omega)]
  have := Nat.mul_le_mul_left wager (show underAmountCents rollUnder t * 100 ≤ 990000 by omega)
  omega

theorem winningOutcomes_valid (rollUnder : Bool) (t : Nat)
    (ht : thresholdOk rollUnder t = true) :
    winningOutcomes rollUnder t = (if rollUnder then t else 9999 - t)
    ∧ underAmountCents rollUnder t = (if rollUnder then t else 10000 - t) := by
  rw [winningOutcomes_eq, underAmountCents_eq rollUnder t ht]
  rw [thresholdOk_iff] at ht
  cases rollUnder
  · simp
  · simp at ht ⊢
    omega

/-- C15 (the code departs from the claim). For the accepted roll-over
threshold 9899 the outcomes that win are exactly those above 9899, there are 100
of them in `[0, 10000)`, and the basis that `onBet` divides by is 101: for
roll-over the basis `10000 - threshold` is one more than the number of winning
outcomes `9999 - threshold`, while for roll-under (threshold 5000) basis and
number of winning outcomes are both the threshold. -/
theorem rollOver_basis_exceeds_wins :
    thresholdOk false 9899 = true
    ∧ (∀ outcome, betWon false outcome 9899 = true ↔ outcome > 9899)
    ∧ winningOutcomes false 9899 = 100
    ∧ underAmountCents false 9899 = 101
    ∧ payoutCents 100 (underAmountCents false 9899) = 9801
    ∧ winningOutcomes true 5000 = 5000
    ∧ underAmountCents true 5000 = 5000 := by
  refine ⟨by decide, ?_, ?_, ?_, ?_, ?_, ?_⟩
  · intro outcome
    simp [betWon]
  · rw [winningOutcomes_eq]; rfl
  · rw [underAmountCents_eq false 9899 (by decide)]; rfl
  · rw [underAmountCents_eq false 9899 (by decide)]; decide
  · rw [winningOutcomes_eq]; rfl
  · rw [underAmountCents_eq true 5000 (by decide)]; rfl

/-! ## C16: the house edge -/

/-- C16. For every direction, every threshold accepted for it and every wager
of at most `MAX_BET_CENTS`, the payout that `onBet` computes multiplied by the
number of outcomes in `[0, 10000)` that win is at most `wager * 9900`: over a
uniformly distributed outcome the expected amount paid back is at most 99% of
the wager. -/
theorem onBet_house_edge (rollUnder : Bool) (threshold wager : Nat)
    (ht : thresholdOk rollUnder threshold = true) (hw : wager ≤ MAX_BET_CENTS) :
    payoutCents wager (underAmountCents rollUnder threshold) * winningOutcomes rollUnder threshold
      ≤ wager * 9900 := by
  have hu := underAmountCents_le rollUnder threshold ht
  exact le_trans (Nat.mul_le_mul_left _ (winningOutcomes_le_basis rollUnder threshold ht))
    (payoutCents_mul_basis_le wager _ hw hu.2)

/-- The bound at wager 1000 for roll-under 5000 and for roll-over 9899. -/
theorem onBet_house_edge_witness :
    (thresholdOk true 5000 = true ∧ 1000 ≤ MAX_BET_CENTS)
    ∧ payoutCents 1000 (underAmountCents true 5000) * winningOutcomes true 5000 ≤ 1000 * 9900
    ∧ payoutCents 1000 (underAmountCents false 9899) * winningOutcomes false 9899
        ≤ 1000 * 9900 :=
  ⟨⟨by decide, by decide⟩, onBet_house_edge true 5000 1000 (by decide) (by decide),
    onBet_house_edge false 9899 1000 (by decide) (by decide)⟩

/-! ## C17: the clamp -/

theorem deltaCents_win_nonneg (wager : Nat) (rollUnder : Bool) (t : Nat)
    (hw : wager ≤ MAX_BET_CENTS) (ht : thresholdOk rollUnder t = true) :
    0 ≤ deltaCents true wager (underAmountCents rollUnder t) := by
  have hu := underAmountCents_le rollUnder t ht
  rw [deltaCents_win wager _ hw hu.2]
  have := payoutCents_ge_wager wager rollUnder t hw ht
  omega

theorem newBalance_exact (balance wager : Nat) (won rollUnder : Bool) (t : Nat)
    (hw : wager ≤ MAX_BET_CENTS) (ht : thresholdOk rollUnder t = true)
    (hwb : wager ≤ balance) (hb : balance < 2 ^ 63)
    (hs : (balance : Int) + deltaCents won wager (underAmountCents rollUnder t) < 2 ^ 63) :
    0 ≤ (balance : Int) + deltaCents won wager (underAmountCents rollUnder t)
    ∧ (u64OfInt64 (newBalance balance (deltaCents won wager (underAmountCents rollUnder t))) : Int)
        = (balance : Int) + deltaCents won wager (underAmountCents rollUnder t) := by
  have hu := underAmountCents_le rollUnder t ht
  have hd : -(wager : Int) ≤ deltaCents won wager (underAmountCents rollUnder t) := by
    cases won
    · rw [deltaCents_loss wager _ hw]
    · have := deltaCents_win_nonneg wager rollUnder t hw ht
      omega
  have h0 : 0 ≤ (balance : Int) + deltaCents won wager (underAmountCents rollUnder t) := by
    omega
  refine ⟨h0, ?_⟩
  unfold MAX_BET_CENTS at hw
  rw [(newBalance_eq_max balance _ hb (by omega) hs).2]
  omega

/-- C17 (the code departs from the claim). On the store whose balance is
`2^63 - 1`, which is below `2^63`, `onBet` accepts the winning roll-over bet of
500 (delta `+118`, so the payout is above the wager): the `int64` sum
`int64(balance) + deltaCents` wraps to a negative value, the clamp is taken and
the stored balance is `0`, not `balance + deltaCents = 9223372036854775925`. -/
theorem onBet_winner_clamped :
    (exBetOver.WagerCents ≤ 9223372036854775807 ∧ (9223372036854775807 : Nat) < 2 ^ 63)
    ∧ onBet exPrims exGame 100 [] exNewSeed exDbMax exBetOver
      = (.ok { Won := true, DeltaCents := 118, ServerSeed := exSeed, Result := 3000 },
         { users := [{ Id := "U", ServerSeed := hexEncodeToString exNewSeed,
                       BalanceCents := 0 }],
           bets := [{ Id := 1, UserId := "U", AmountCents := 500, RollUnder := false,
                      Threshold := 2000, Result := 3000, Won := true, ServerSeed := exSeed,
                      CreatedAt := 100 }],
           deposits := [] })
    ∧ wrapInt64 (int64OfU64 9223372036854775807 + 118) < 0
    ∧ (9223372036854775807 : Int) + 118 = 9223372036854775925 :=
  ⟨⟨by decide, by decide⟩, by decide, by decide, by decide⟩

end IvyDice
